import Mathlib

/-!
Verification of the UmiTerm terminal emulator core against its specification.

The Rust sources under src/ are shallowly embedded: `usize` values become
Nat (with truncated subtraction noted wherever the source could underflow),
`Vec` becomes `List`, struct mutation becomes functional record update, and
loops become folds over explicit index ranges.  Fields of the source structs
that no claim refers to (window title, current working directory, text
selection, the raw pixel buffer of the glyph atlas, GPU uv coordinates) are
omitted; a comment at each definition records the omission.
-/

namespace UmiTerm

/-- RGBA color, each channel an 8-bit value (grid.rs, struct Color). -/
structure Color where
  r : Nat
  g : Nat
  b : Nat
  a : Nat
deriving DecidableEq, Repr

/-- Color::BLACK. -/
def Color.black : Color := ⟨0, 0, 0, 255⟩

/-- Color::EMERALD, the default foreground (grid.rs). -/
def Color.emerald : Color := ⟨80, 220, 200, 255⟩

/-- One terminal cell (grid.rs, struct Cell).  The style flag set
(`CellFlags`, a u8 bitset) is embedded as the Nat value of the bitmask. -/
structure Cell where
  character : Char
  fg : Color
  bg : Color
  flags : Nat
deriving DecidableEq, Repr

/-- Cell::default(): a blank space with emerald foreground on black. -/
def Cell.default : Cell := ⟨' ', Color.emerald, Color.black, 0⟩

instance : Inhabited Cell := ⟨Cell.default⟩

/-- The cell grid (grid.rs, struct Grid): row-major cells plus per-row
dirty bits. -/
structure Grid where
  cells : List Cell
  cols : Nat
  rows : Nat
  dirtyLines : List Bool
deriving DecidableEq, Repr

namespace Grid

/-- Grid::new(cols, rows). -/
def new (cols rows : Nat) : Grid :=
  { cells := List.replicate (cols * rows) Cell.default
    cols := cols
    rows := rows
    dirtyLines := List.replicate rows true }

/-- Unchecked indexing `grid[(col, row)]` (grid.rs, impl Index).  The source
panics on an out-of-range flat index; every verified use below is in bounds,
and the out-of-range case is modelled as the default cell. -/
def idx (g : Grid) (col row : Nat) : Cell :=
  g.cells.getD (row * g.cols + col) Cell.default

/-- Grid::get(col, row): `Some` cell inside the bounds, `None` outside. -/
def get (g : Grid) (col row : Nat) : Option Cell :=
  if col < g.cols ∧ row < g.rows then
    some (g.cells.getD (row * g.cols + col) Cell.default)
  else
    none

/-- Grid::set(col, row, cell): writes the cell and marks the row dirty when
in bounds, and is a silent no-op otherwise. -/
def set (g : Grid) (col row : Nat) (cell : Cell) : Grid :=
  if col < g.cols ∧ row < g.rows then
    { g with
      cells := g.cells.set (row * g.cols + col) cell
      dirtyLines := g.dirtyLines.set row true }
  else
    g

/-- Grid::clear_row(row): fills the row with default cells and marks it
dirty; no-op when the row is out of range. -/
def clearRow (g : Grid) (row : Nat) : Grid :=
  if row < g.rows then
    { g with
      cells := (List.range g.cols).foldl
        (fun cs i => cs.set (row * g.cols + i) Cell.default) g.cells
      dirtyLines := g.dirtyLines.set row true }
  else
    g

/-- Grid::clear(): every cell becomes the default and all rows are dirty. -/
def clear (g : Grid) : Grid :=
  { g with
    cells := g.cells.map (fun _ => Cell.default)
    dirtyLines := g.dirtyLines.map (fun _ => true) }

/-- Vec::copy_within(shift.., 0): the slice starting at `shift` is copied to
the front; the tail keeps its old contents. -/
def copyWithinToStart (l : List Cell) (shift : Nat) : List Cell :=
  l.drop shift ++ l.drop (l.length - shift)

/-- Grid::scroll_up(amount): whole-grid scroll.  `amount ≥ rows` clears the
grid; otherwise the rows `[amount, rows)` move to the top by one contiguous
copy and the vacated tail is cleared cell by cell. -/
def scrollUp (g : Grid) (amount : Nat) : Grid :=
  if amount ≥ g.rows then
    g.clear
  else
    let shift := amount * g.cols
    let moved := copyWithinToStart g.cells shift
    let clearStart := (g.rows - amount) * g.cols
    { g with
      cells := (List.range (moved.length - clearStart)).foldl
        (fun cs i => cs.set (clearStart + i) Cell.default) moved
      dirtyLines := g.dirtyLines.map (fun _ => true) }

/-- Grid::resize(new_cols, new_rows): allocates a fresh default buffer,
copies the overlap `min(old,new)` cell by cell at the original coordinates,
and marks every row dirty. -/
def resize (g : Grid) (newCols newRows : Nat) : Grid :=
  let copyCols := min g.cols newCols
  let copyRows := min g.rows newRows
  let blank := List.replicate (newCols * newRows) Cell.default
  let copied := (List.range copyRows).foldl
    (fun cs row =>
      (List.range copyCols).foldl
        (fun cs2 col =>
          cs2.set (row * newCols + col) (g.cells.getD (row * g.cols + col) Cell.default))
        cs)
    blank
  { cells := copied
    cols := newCols
    rows := newRows
    dirtyLines := List.replicate newRows true }

/-- Grid::mark_all_dirty(). -/
def markAllDirty (g : Grid) : Grid :=
  { g with dirtyLines := g.dirtyLines.map (fun _ => true) }

/-- Grid::clear_dirty(). -/
def clearDirty (g : Grid) : Grid :=
  { g with dirtyLines := g.dirtyLines.map (fun _ => false) }

/-- The representation invariant of a grid: the flat buffer holds exactly
cols × rows cells and one dirty bit per row. -/
def WF (g : Grid) : Prop :=
  g.cells.length = g.cols * g.rows ∧ g.dirtyLines.length = g.rows

instance (g : Grid) : Decidable g.WF := by
  unfold WF; infer_instance

end Grid

/-- Cursor shape (terminal.rs, enum CursorShape). -/
inductive CursorShape where
  | block
  | underline
  | beam
deriving DecidableEq, Repr

/-- Cursor state (terminal.rs, struct Cursor). -/
structure Cursor where
  col : Nat
  row : Nat
  shape : CursorShape
  blinking : Bool
  visible : Bool
deriving DecidableEq, Repr

/-- Cursor::default(). -/
def Cursor.default : Cursor :=
  { col := 0, row := 0, shape := .block, blinking := true, visible := true }

/-- The terminal mode bitset (terminal.rs, TerminalMode), one Bool per
flag. -/
structure TermMode where
  cursorKeysApp : Bool
  altScreen : Bool
  autoWrap : Bool
  insertMode : Bool
  originMode : Bool
  mouseTracking : Bool
  bracketedPaste : Bool
deriving DecidableEq, Repr

/-- TerminalMode::AUTO_WRAP, the initial mode. -/
def TermMode.initial : TermMode :=
  { cursorKeysApp := false, altScreen := false, autoWrap := true
    insertMode := false, originMode := false, mouseTracking := false
    bracketedPaste := false }

/-- The style applied to newly written characters (terminal.rs,
struct CellStyle). -/
structure CellStyle where
  fg : Color
  bg : Color
  flags : Nat
deriving DecidableEq, Repr

/-- Tab stops at every multiple of 8 below cols: the Rust loop
`for i in (8..cols).step_by(8)` (terminal.rs, Terminal::new / resize). -/
def tabStops (cols : Nat) : List Nat :=
  (List.range ((cols - 1) / 8)).map (fun k => 8 * (k + 1))

/-- The full terminal state (terminal.rs, struct Terminal).  The source
fields `title`, `cwd` and `selection` are omitted: no claim mentions them
and no modelled operation reads them. -/
structure Terminal where
  grid : Grid
  altGrid : Grid
  cursor : Cursor
  savedCursor : Cursor
  mode : TermMode
  currentStyle : CellStyle
  scrollTop : Nat
  scrollBottom : Nat
  tabs : List Nat
deriving DecidableEq, Repr

namespace Terminal

/-- Terminal::new(cols, rows).  The source computes `rows - 1` on a usize;
rows ≥ 1 is assumed by every claim (Nat subtraction truncates at 0). -/
def new (cols rows : Nat) : Terminal :=
  { grid := Grid.new cols rows
    altGrid := Grid.new cols rows
    cursor := Cursor.default
    savedCursor := Cursor.default
    mode := TermMode.initial
    currentStyle := { fg := Color.emerald, bg := Color.black, flags := 0 }
    scrollTop := 0
    scrollBottom := rows - 1
    tabs := tabStops cols }

/-- Terminal::active_grid(): the alternate grid in AltScreen mode, the main
grid otherwise. -/
def activeGrid (t : Terminal) : Grid :=
  if t.mode.altScreen then t.altGrid else t.grid

/-- Writing back through Terminal::active_grid_mut(): replaces whichever
grid is active. -/
def setActive (t : Terminal) (g : Grid) : Terminal :=
  if t.mode.altScreen then { t with altGrid := g } else { t with grid := g }

/-- Terminal::move_cursor_to(col, row): clamps both coordinates to the
active grid bounds. -/
def moveCursorTo (t : Terminal) (col row : Nat) : Terminal :=
  let cols := t.activeGrid.cols
  let rows := t.activeGrid.rows
  { t with cursor := { t.cursor with
      col := min col (cols - 1)
      row := min row (rows - 1) } }

/-- Terminal::move_cursor(delta_col, delta_row): i32 offsets, floored at 0,
then clamped by move_cursor_to. -/
def moveCursor (t : Terminal) (deltaCol deltaRow : Int) : Terminal :=
  let newCol := (max ((t.cursor.col : Int) + deltaCol) 0).toNat
  let newRow := (max ((t.cursor.row : Int) + deltaRow) 0).toNat
  t.moveCursorTo newCol newRow

/-- Terminal::save_cursor(). -/
def saveCursor (t : Terminal) : Terminal :=
  { t with savedCursor := t.cursor }

/-- Terminal::restore_cursor(). -/
def restoreCursor (t : Terminal) : Terminal :=
  { t with cursor := t.savedCursor }

/-- Terminal::carriage_return(). -/
def carriageReturn (t : Terminal) : Terminal :=
  { t with cursor := { t.cursor with col := 0 } }

/-- Terminal::tab(): advance to the first tab stop beyond the cursor
(clamped to the last column), or to the last column when none remains. -/
def tabOp (t : Terminal) : Terminal :=
  let cols := t.activeGrid.cols
  match t.tabs.find? (fun stop => decide (stop > t.cursor.col)) with
  | some stop => { t with cursor := { t.cursor with col := min stop (cols - 1) } }
  | none => { t with cursor := { t.cursor with col := cols - 1 } }

/-- Terminal::backspace(). -/
def backspace (t : Terminal) : Terminal :=
  { t with cursor := { t.cursor with col := t.cursor.col - 1 } }

end Terminal

/-- An inclusive Rust range `a..=b` as the list a, a+1, …, b (empty when
a > b). -/
def rangeIncl (a b : Nat) : List Nat :=
  List.range' a (b + 1 - a)

namespace Grid

/-- The inner column loop shared by Terminal::scroll_up and scroll_down:
copy every column of srcRow into row, one bounds-checked set per cell,
reading each source cell from the state as it stands when the cell is
copied (the source row is never the destination row, so the reads see the
original contents). -/
def copyRowFrom (g : Grid) (row srcRow : Nat) : Grid :=
  (List.range g.cols).foldl (fun acc col => acc.set col row (acc.idx col srcRow)) g

/-- Shape equality of two grids: same dimensions and same buffer lengths.
Every cell-level mutation of the source preserves it. -/
def sameShape (g g' : Grid) : Prop :=
  g'.cols = g.cols ∧ g'.rows = g.rows ∧
  g'.cells.length = g.cells.length ∧ g'.dirtyLines.length = g.dirtyLines.length

/-- The body of Terminal::scroll_up acting on the active grid, with the
scroll region and amount as parameters.  The source mutates only the active
grid and never changes the mode while doing so, so the Terminal-level
operation factors through this Grid-level function.  The copy loop walks
rows `scroll_top..=scroll_bottom.saturating_sub(amount)` and pulls each row
from `amount` rows below; the source checks `src_row <= scroll_bottom`
inside the column loop, and since the check does not mention the column it
is made once per row here.  The clear loop walks
`(scroll_bottom + 1 - amount)..=scroll_bottom`; its lower bound is an
unchecked usize subtraction in the source: when `amount > scroll_bottom + 1`
a release build wraps it around to a huge value, making the range empty (a
debug build would panic), which is the behaviour embedded here. -/
def scrollRegionUp (g : Grid) (st sb amount : Nat) : Grid :=
  let copied := (rangeIncl st (sb - amount)).foldl
    (fun acc row =>
      if row + amount ≤ sb then acc.copyRowFrom row (row + amount) else acc)
    g
  let clearRows := if amount ≤ sb + 1 then rangeIncl (sb + 1 - amount) sb else []
  clearRows.foldl (fun acc row => acc.clearRow row) copied

/-- The body of Terminal::scroll_down acting on the active grid.  The copy
loop walks rows `(scroll_top + amount..=scroll_bottom).rev()`, pulling each
row from `amount` rows above; the source checks `src_row >= scroll_top`
inside the column loop, and since the check does not mention the column it
is made once per row here (`row - amount` is a saturating Nat subtraction,
matching usize behaviour because `row ≥ scroll_top + amount` on every
iteration).  The clear loop walks `scroll_top..scroll_top + amount`
(clear_row ignores rows beyond the grid). -/
def scrollRegionDown (g : Grid) (st sb amount : Nat) : Grid :=
  let copied := (rangeIncl (st + amount) sb).reverse.foldl
    (fun acc row =>
      if st ≤ row - amount then acc.copyRowFrom row (row - amount) else acc)
    g
  let clearRows := (List.range amount).map (st + ·)
  clearRows.foldl (fun acc row => acc.clearRow row) copied

end Grid

namespace Terminal

/-- Terminal::scroll_up(amount) on the scroll region of the active grid. -/
def scrollUpOp (t : Terminal) (amount : Nat) : Terminal :=
  t.setActive (t.activeGrid.scrollRegionUp t.scrollTop t.scrollBottom amount)

/-- Terminal::scroll_down(amount) on the scroll region of the active
grid. -/
def scrollDownOp (t : Terminal) (amount : Nat) : Terminal :=
  t.setActive (t.activeGrid.scrollRegionDown t.scrollTop t.scrollBottom amount)

/-- Terminal::linefeed(): scrolls the region up one row when the cursor is
at or below scroll_bottom, and advances the row otherwise. -/
def linefeed (t : Terminal) : Terminal :=
  if t.cursor.row ≥ t.scrollBottom then
    t.scrollUpOp 1
  else
    { t with cursor := { t.cursor with row := t.cursor.row + 1 } }

/-- Terminal::handle_control_char(c). -/
def handleControlChar (t : Terminal) (c : Char) : Terminal :=
  if c = '\n' then t.linefeed
  else if c = '\r' then t.carriageReturn
  else if c = '\t' then t.tabOp
  else if c.toNat = 0x08 then t.backspace
  else t

/-- The write half of Terminal::input_char, after the wrap/clamp phase:
build the cell from the current style, set it at the cursor, add the
styled blank spacer at (col+1, row) when the character is wide and the
spacer still fits the pre-wrap column count, and advance the column by
the width. -/
def writeGlyph (t1 : Terminal) (cols w : Nat) (c : Char) : Terminal :=
  let cell : Cell :=
    { character := c, fg := t1.currentStyle.fg, bg := t1.currentStyle.bg
      flags := t1.currentStyle.flags }
  let col := t1.cursor.col
  let row := t1.cursor.row
  let t2 := t1.setActive (t1.activeGrid.set col row cell)
  let t3 :=
    if w = 2 ∧ col + 1 < cols then
      let spacer : Cell :=
        { character := ' ', fg := t2.currentStyle.fg, bg := t2.currentStyle.bg
          flags := t2.currentStyle.flags }
      t2.setActive (t2.activeGrid.set (col + 1) row spacer)
    else t2
  { t3 with cursor := { t3.cursor with col := t3.cursor.col + w } }

/-- Terminal::input_char(c).  The display width of c comes from the
unicode-width crate in the source (`c.width().unwrap_or(1)`) and is passed
here as the parameter w. -/
def inputChar (t : Terminal) (w : Nat) (c : Char) : Terminal :=
  if c.toNat < 0x20 then
    t.handleControlChar c
  else
    let cols := t.activeGrid.cols
    let t1 :=
      if t.cursor.col + w > cols then
        if t.mode.autoWrap then
          let ta := { t with cursor := { t.cursor with col := 0, row := t.cursor.row + 1 } }
          if ta.cursor.row > ta.scrollBottom then
            let tb := ta.scrollUpOp 1
            { tb with cursor := { tb.cursor with row := tb.scrollBottom } }
          else ta
        else
          { t with cursor := { t.cursor with col := cols - w } }
      else t
    t1.writeGlyph cols w c

/-- Terminal::erase_line_to_end(). -/
def eraseLineToEnd (t : Terminal) : Terminal :=
  let row := t.cursor.row
  let cols := t.activeGrid.cols
  (rangeIncl t.cursor.col (cols - 1)).foldl
    (fun acc col => acc.setActive (acc.activeGrid.set col row Cell.default)) t

/-- Terminal::erase_line_to_start(). -/
def eraseLineToStart (t : Terminal) : Terminal :=
  let row := t.cursor.row
  (rangeIncl 0 t.cursor.col).foldl
    (fun acc col => acc.setActive (acc.activeGrid.set col row Cell.default)) t

/-- Terminal::erase_line(). -/
def eraseLine (t : Terminal) : Terminal :=
  t.setActive (t.activeGrid.clearRow t.cursor.row)

/-- Terminal::erase_display_to_end(). -/
def eraseDisplayToEnd (t : Terminal) : Terminal :=
  let t1 := t.eraseLineToEnd
  let rows := t1.activeGrid.rows
  (rangeIncl (t1.cursor.row + 1) (rows - 1)).foldl
    (fun acc row => acc.setActive (acc.activeGrid.clearRow row)) t1

/-- Terminal::erase_display_to_start(). -/
def eraseDisplayToStart (t : Terminal) : Terminal :=
  let t1 := t.eraseLineToStart
  (List.range t1.cursor.row).foldl
    (fun acc row => acc.setActive (acc.activeGrid.clearRow row)) t1

/-- Terminal::erase_display(). -/
def eraseDisplay (t : Terminal) : Terminal :=
  t.setActive t.activeGrid.clear

/-- Terminal::enter_alt_screen(): when not already in AltScreen mode, sets
the flag, clears the alternate grid and saves the cursor. -/
def enterAltScreen (t : Terminal) : Terminal :=
  if t.mode.altScreen then t
  else
    let t1 := { t with mode := { t.mode with altScreen := true } }
    let t2 := { t1 with altGrid := t1.altGrid.clear }
    t2.saveCursor

/-- Terminal::exit_alt_screen(): when in AltScreen mode, clears the flag,
restores the cursor, resets the scroll region to the whole grid and marks
the main grid all dirty. -/
def exitAltScreen (t : Terminal) : Terminal :=
  if t.mode.altScreen then
    let t1 := { t with mode := { t.mode with altScreen := false } }
    let t2 := t1.restoreCursor
    let t3 := { t2 with scrollTop := 0, scrollBottom := t2.grid.rows - 1 }
    { t3 with grid := t3.grid.markAllDirty }
  else t

/-- Terminal::resize(cols, rows): resizes both grids, sets scroll_bottom to
rows - 1 (the source leaves scroll_top untouched), clamps the cursor and
recomputes the tab stops. -/
def resize (t : Terminal) (cols rows : Nat) : Terminal :=
  let t1 := { t with
    grid := t.grid.resize cols rows
    altGrid := t.altGrid.resize cols rows
    scrollBottom := rows - 1 }
  let t2 := { t1 with cursor := { t1.cursor with
    col := if t1.cursor.col ≥ cols then cols - 1 else t1.cursor.col
    row := if t1.cursor.row ≥ rows then rows - 1 else t1.cursor.row } }
  { t2 with tabs := tabStops cols }

/-- The CSI G (CHA) arm of TerminalPerformer::csi_dispatch (parser.rs):
`cursor.col = param.saturating_sub(1)` with no clamping to the grid.  The
parameter p is the first CSI parameter (default 1). -/
def csiCha (t : Terminal) (p : Nat) : Terminal :=
  { t with cursor := { t.cursor with col := p - 1 } }

/-- The CSI r (DECSTBM) arm of TerminalPerformer::csi_dispatch (parser.rs):
scroll_top is `p1.saturating_sub(1)` with no clamping, scroll_bottom is
`p2.saturating_sub(1).min(rows - 1)`, then the cursor moves to (0,0).  p1
defaults to 1 and p2 to rows at the call site. -/
def csiDecstbm (t : Terminal) (p1 p2 : Nat) : Terminal :=
  let rows := t.activeGrid.rows
  let t1 := { t with scrollTop := p1 - 1, scrollBottom := min (p2 - 1) (rows - 1) }
  t1.moveCursorTo 0 0

/-- Modelled from the words of claim C4: the character is written with the
current style at the cursor, a styled blank spacer follows at (col+1, row)
whenever w = 2, and the column advances by w. -/
def writeGlyphClaim (t1 : Terminal) (w : Nat) (c : Char) : Terminal :=
  let cell : Cell :=
    { character := c, fg := t1.currentStyle.fg, bg := t1.currentStyle.bg
      flags := t1.currentStyle.flags }
  let col := t1.cursor.col
  let row := t1.cursor.row
  let t2 := t1.setActive (t1.activeGrid.set col row cell)
  let t3 :=
    if w = 2 then
      let spacer : Cell :=
        { character := ' ', fg := t2.currentStyle.fg, bg := t2.currentStyle.bg
          flags := t2.currentStyle.flags }
      t2.setActive (t2.activeGrid.set (col + 1) row spacer)
    else t2
  { t3 with cursor := { t3.cursor with col := t3.cursor.col + w } }

/-- Modelled from the words of claim C4, for comparison with inputChar: on
overflow, AutoWrap performs a CR+LF (column 0; the row advances unless the
cursor is at scroll_bottom, where the region scrolls up and the row stays),
and with AutoWrap clear the column is clamped to cols - w; then the
character and its spacer are written as in writeGlyphClaim. -/
def inputCharClaim (t : Terminal) (w : Nat) (c : Char) : Terminal :=
  let cols := t.activeGrid.cols
  let t1 :=
    if t.cursor.col + w > cols then
      if t.mode.autoWrap then
        let ta := { t with cursor := { t.cursor with col := 0 } }
        if ta.cursor.row = ta.scrollBottom then
          ta.scrollUpOp 1
        else
          { ta with cursor := { ta.cursor with row := ta.cursor.row + 1 } }
      else
        { t with cursor := { t.cursor with col := cols - w } }
    else t
  t1.writeGlyphClaim w c

end Terminal

/-- One operation of the groups named by claim C6: printing, erasing,
cursor movement and scrolling.  Mode transitions and save/restore are not
in the list, exactly as in the claim. -/
inductive TermOp where
  | input (w : Nat) (c : Char)
  | lf
  | cr
  | tab
  | bs
  | moveTo (col row : Nat)
  | move (dc dr : Int)
  | up (n : Nat)
  | down (n : Nat)
  | lineToEnd
  | lineToStart
  | line
  | dispToEnd
  | dispToStart
  | disp

/-- Dispatch of a TermOp to the corresponding Terminal method. -/
def TermOp.apply (op : TermOp) (t : Terminal) : Terminal :=
  match op with
  | .input w c => t.inputChar w c
  | .lf => t.linefeed
  | .cr => t.carriageReturn
  | .tab => t.tabOp
  | .bs => t.backspace
  | .moveTo c r => t.moveCursorTo c r
  | .move dc dr => t.moveCursor dc dr
  | .up n => t.scrollUpOp n
  | .down n => t.scrollDownOp n
  | .lineToEnd => t.eraseLineToEnd
  | .lineToStart => t.eraseLineToStart
  | .line => t.eraseLine
  | .dispToEnd => t.eraseDisplayToEnd
  | .dispToStart => t.eraseDisplayToStart
  | .disp => t.eraseDisplay

/-- A sequence of TermOps applied left to right. -/
def applyOps (ops : List TermOp) (t : Terminal) : Terminal :=
  ops.foldl (fun acc op => op.apply acc) t

/-- The pane layout tree (pane.rs, enum PaneLayout): leaves carry pane ids,
internal nodes a horizontal or vertical split with the left/top share
`frac` (`ratio` in the source, an f32; split ratios are embedded as exact
rationals). -/
inductive PaneLayout where
  | single (id : Nat)
  | hsplit (left right : PaneLayout) (frac : Rat)
  | vsplit (top bottom : PaneLayout) (frac : Rat)
deriving DecidableEq, Repr

namespace PaneLayout

/-- PaneLayout::split_horizontal(target, new): replace the first leaf equal
to target (left child searched before right, short-circuiting) by an HSplit
of the old leaf and a new leaf with ratio 0.5; the Bool mirrors the Rust
return value (whether the target was found). -/
def splitHorizontal : PaneLayout → Nat → Nat → PaneLayout × Bool
  | single id, t, n =>
    if id = t then (hsplit (single t) (single n) (1/2 : Rat), true)
    else (single id, false)
  | hsplit l r f, t, n =>
    let (l2, foundL) := splitHorizontal l t n
    if foundL then (hsplit l2 r f, true)
    else
      let (r2, foundR) := splitHorizontal r t n
      (hsplit l2 r2 f, foundR)
  | vsplit a b f, t, n =>
    let (a2, foundA) := splitHorizontal a t n
    if foundA then (vsplit a2 b f, true)
    else
      let (b2, foundB) := splitHorizontal b t n
      (vsplit a2 b2 f, foundB)

/-- PaneLayout::split_vertical(target, new): as splitHorizontal but the
new node is a VSplit. -/
def splitVertical : PaneLayout → Nat → Nat → PaneLayout × Bool
  | single id, t, n =>
    if id = t then (vsplit (single t) (single n) (1/2 : Rat), true)
    else (single id, false)
  | hsplit l r f, t, n =>
    let (l2, foundL) := splitVertical l t n
    if foundL then (hsplit l2 r f, true)
    else
      let (r2, foundR) := splitVertical r t n
      (hsplit l2 r2 f, foundR)
  | vsplit a b f, t, n =>
    let (a2, foundA) := splitVertical a t n
    if foundA then (vsplit a2 b f, true)
    else
      let (b2, foundB) := splitVertical b t n
      (vsplit a2 b2 f, foundB)

/-- Whether a layout is exactly the leaf of the given id (the direct-child
pattern checks of PaneLayout::remove_pane). -/
def isLeafOf : PaneLayout → Nat → Bool
  | single id, t => id = t
  | _, _ => false

/-- PaneLayout::remove_pane(target): `some y` means the receiver is to be
replaced by y with the target leaf removed (the caller assigns the result
over the receiver); `none` means the target was not found below an internal
node, or the receiver itself is a lone leaf.  Direct leaf children are
checked left before right, then the children are searched recursively. -/
def removePane : PaneLayout → Nat → Option PaneLayout
  | single _, _ => none
  | hsplit l r f, t =>
    if l.isLeafOf t then some r
    else if r.isLeafOf t then some l
    else
      match removePane l t with
      | some l2 => some (hsplit l2 r f)
      | none =>
        match removePane r t with
        | some r2 => some (hsplit l r2 f)
        | none => none
  | vsplit a b f, t =>
    if a.isLeafOf t then some b
    else if b.isLeafOf t then some a
    else
      match removePane a t with
      | some a2 => some (vsplit a2 b f)
      | none =>
        match removePane b t with
        | some b2 => some (vsplit a b2 f)
        | none => none

/-- PaneLayout::all_pane_ids(): the leaf ids in order (Vec pushes during
the recursive walk become list append). -/
def allPaneIds : PaneLayout → List Nat
  | single id => [id]
  | hsplit l r _ => allPaneIds l ++ allPaneIds r
  | vsplit a b _ => allPaneIds a ++ allPaneIds b

end PaneLayout

/-- A normalized rectangle (pane.rs, struct Rect).  The f32 coordinates are
embedded as exact rationals. -/
structure RectQ where
  x : Rat
  y : Rat
  w : Rat
  h : Rat
deriving DecidableEq, Repr

/-- The set of points covered by a rectangle, half-open on the right and
bottom edges. -/
def RectQ.points (r : RectQ) : Set (Rat × Rat) :=
  { p | r.x ≤ p.1 ∧ p.1 < r.x + r.w ∧ r.y ≤ p.2 ∧ p.2 < r.y + r.h }

namespace PaneLayout

/-- PaneLayout::calculate_rects(bounds): the `(pane_id, rect)` pairs in the
order the source pushes them (left/top subtree first). -/
def calculateRects : PaneLayout → RectQ → List (Nat × RectQ)
  | single id, bounds => [(id, bounds)]
  | hsplit l r f, bounds =>
    let leftB : RectQ := { x := bounds.x, y := bounds.y, w := bounds.w * f, h := bounds.h }
    let rightB : RectQ :=
      { x := bounds.x + bounds.w * f, y := bounds.y, w := bounds.w * (1 - f), h := bounds.h }
    calculateRects l leftB ++ calculateRects r rightB
  | vsplit a b f, bounds =>
    let topB : RectQ := { x := bounds.x, y := bounds.y, w := bounds.w, h := bounds.h * f }
    let botB : RectQ :=
      { x := bounds.x, y := bounds.y + bounds.h * f, w := bounds.w, h := bounds.h * (1 - f) }
    calculateRects a topB ++ calculateRects b botB

/-- Every split ratio in the tree lies strictly between 0 and 1 (the
hypothesis of claim C8). -/
def FracsValid : PaneLayout → Prop
  | single _ => True
  | hsplit l r f => 0 < f ∧ f < 1 ∧ FracsValid l ∧ FracsValid r
  | vsplit a b f => 0 < f ∧ f < 1 ∧ FracsValid a ∧ FracsValid b

end PaneLayout

/-- The set of points covered by at least one rectangle of a
`calculate_rects` result. -/
def coveredPoints (l : List (Nat × RectQ)) : Set (Rat × Rat) :=
  { p | ∃ pr ∈ l, p ∈ pr.2.points }

/-- Two entries of a `calculate_rects` result cover no common point. -/
def PtsDisjoint (a b : Nat × RectQ) : Prop :=
  ∀ p, p ∈ a.2.points → p ∉ b.2.points

/-! A model of the binary32 (f32) arithmetic that calculate_rects actually
performs.  A value is an integer multiple of 2^(-300) stored as the scaled
integer v (the value is v·2^(-300)); every finite binary32 — significand
below 2^24, exponent at least -149 — is exactly such a multiple, so the
representation is lossless.  Each of the source's f32 operations computes
the exact result and rounds it to the nearest binary32. -/

/-- Floor of log₂ by fuel recursion (kernel-reducible, unlike the
well-founded Nat.log2). -/
def natLog2Aux : Nat → Nat → Nat
  | 0, _ => 0
  | fuel + 1, n => if 2 ≤ n then natLog2Aux fuel (n / 2) + 1 else 0

/-- Floor of log₂ of a positive natural below 2^1000 (every number arising
from the scaled binary32 computations is far below that bound). -/
def natLog2 (n : Nat) : Nat := natLog2Aux 1000 n

/-- Rounding of a positive scaled value to the nearest binary32 — round
half to even on a 24-bit significand, as IEEE 754 prescribes throughout the
normal range.  Subnormal quantization and overflow to infinity, which no
layout computation here comes near, are not modelled, and nonpositive
inputs (which do not arise) map to zero. -/
def roundF32S (v : Int) : Int :=
  if v ≤ 0 then 0
  else
    let l := natLog2 v.toNat
    if l ≤ 23 then v
    else
      let d : Int := (2 : Int) ^ (l - 23)
      let n := v / d
      let r := v % d
      let m : Int :=
        if 2 * r < d then n
        else if d < 2 * r then n + 1
        else if n % 2 = 0 then n else n + 1
      m * d

/-- The exact product of two scaled values.  Binary32 inputs are multiples
of 2^151 at this scale, so the division by the scale is exact. -/
def mulS (a b : Int) : Int := a * b / 2 ^ 300

/-- The f32 value 1.0 in the scaled representation. -/
def f32One : Int := 2 ^ 300

/-- A rational in the scaled representation; exact for every rational whose
denominator divides 2^300, in particular for every binary32-representable
split ratio the source can store. -/
def ratToScaled (q : Rat) : Int := q.num * 2 ^ 300 / (q.den : Int)

/-- The binary32 value nearest 0.1: the ratio the source stores when a pane
is split with ratio 0.1f32.  (0.1 itself is not representable.) -/
def frac01 : Rat := ⟨13421773, 134217728, by norm_num, by norm_num⟩

/-- A rectangle with scaled-integer (binary32) coordinates. -/
structure RectF where
  x : Int
  y : Int
  w : Int
  h : Int
deriving DecidableEq, Repr

/-- The rational rectangle a scaled rectangle denotes. -/
def RectF.toQ (r : RectF) : RectQ :=
  ⟨(r.x : Rat) / 2 ^ 300, (r.y : Rat) / 2 ^ 300, (r.w : Rat) / 2 ^ 300, (r.h : Rat) / 2 ^ 300⟩

namespace PaneLayout

/-- PaneLayout::calculate_rects(bounds) with the source's f32 arithmetic
made explicit: the same recursion as calculateRects, but every
multiplication, addition and subtraction of coordinates rounds its exact
result to the nearest binary32, exactly as the hardware evaluates
`bounds.width * ratio`, `bounds.x + bounds.width * ratio` and
`bounds.width * (1.0 - ratio)`. -/
def calculateRectsF32 : PaneLayout → RectF → List (Nat × RectF)
  | single id, bounds => [(id, bounds)]
  | hsplit l r f, bounds =>
    let fS := ratToScaled f
    let lw := roundF32S (mulS bounds.w fS)
    let leftB : RectF := { x := bounds.x, y := bounds.y, w := lw, h := bounds.h }
    let rightB : RectF :=
      { x := roundF32S (bounds.x + lw), y := bounds.y
        w := roundF32S (mulS bounds.w (roundF32S (f32One - fS))), h := bounds.h }
    calculateRectsF32 l leftB ++ calculateRectsF32 r rightB
  | vsplit a b f, bounds =>
    let fS := ratToScaled f
    let th := roundF32S (mulS bounds.h fS)
    let topB : RectF := { x := bounds.x, y := bounds.y, w := bounds.w, h := th }
    let botB : RectF :=
      { x := bounds.x, y := roundF32S (bounds.y + th)
        w := bounds.w, h := roundF32S (mulS bounds.h (roundF32S (f32One - fS))) }
    calculateRectsF32 a topB ++ calculateRectsF32 b botB

end PaneLayout

/-- A glyph's pixel rectangle inside the atlas texture. -/
structure GlyphRect where
  x : Nat
  y : Nat
  w : Nat
  h : Nat
deriving DecidableEq, Repr

/-- The glyph atlas (renderer.rs, struct GlyphAtlas).  The HashMap becomes
an association list keyed by the character; each entry stores the pixel
rectangle allocated for the glyph, or none for the zero-size (whitespace)
records, which occupy no texture area.  The pixel buffer, uv coordinates,
baseline offsets and the dirty flag are omitted: the claims speak only
about the packing rectangles. -/
structure GlyphAtlas where
  glyphs : List (Char × Option GlyphRect)
  cursorX : Nat
  cursorY : Nat
  rowHeight : Nat
  width : Nat
  height : Nat
deriving DecidableEq, Repr

namespace GlyphAtlas

/-- GlyphAtlas::new(width, height). -/
def new (width height : Nat) : GlyphAtlas :=
  { glyphs := [], cursorX := 0, cursorY := 0, rowHeight := 0
    width := width, height := height }

/-- GlyphAtlas::get_or_insert(c, …).  The rasterized dimensions (w, h) of c
come from the fonts in the source and are parameters here.  A cached
character returns its record unchanged; a zero-size raster caches a record
without a rectangle; otherwise the shelf is wrapped when the glyph does not
fit horizontally, the insertion fails (returning none) when the glyph then
does not fit vertically, and a successful insertion records the rectangle,
advances cursor_x by w + 1 and raises row_height to at least h + 1. -/
def getOrInsert (a : GlyphAtlas) (c : Char) (w h : Nat) :
    Option (Option GlyphRect) × GlyphAtlas :=
  match a.glyphs.lookup c with
  | some info => (some info, a)
  | none =>
    if w = 0 ∨ h = 0 then
      (some none, { a with glyphs := (c, none) :: a.glyphs })
    else
      let a1 :=
        if a.cursorX + w > a.width then
          { a with cursorX := 0, cursorY := a.cursorY + a.rowHeight, rowHeight := 0 }
        else a
      if a1.cursorY + h > a1.height then
        (none, a1)
      else
        let rect : GlyphRect := { x := a1.cursorX, y := a1.cursorY, w := w, h := h }
        (some (some rect),
          { a1 with
            glyphs := (c, some rect) :: a1.glyphs
            cursorX := a1.cursorX + w + 1
            rowHeight := max a1.rowHeight (h + 1) })

/-- Run a list of (character, width, height) requests against the atlas,
discarding the returned records. -/
def run (a : GlyphAtlas) (reqs : List (Char × Nat × Nat)) : GlyphAtlas :=
  reqs.foldl (fun acc req => (acc.getOrInsert req.1 req.2.1 req.2.2).2) a

/-- The rectangles currently cached in the atlas. -/
def rects (a : GlyphAtlas) : List GlyphRect :=
  a.glyphs.filterMap (fun p => p.2)

/-- Two pixel rectangles are disjoint when they are separated along one
axis. -/
def RectsDisjoint (r1 r2 : GlyphRect) : Prop :=
  r1.x + r1.w ≤ r2.x ∨ r2.x + r2.w ≤ r1.x ∨ r1.y + r1.h ≤ r2.y ∨ r2.y + r2.h ≤ r1.y

/-- A rectangle lies inside a width × height atlas. -/
def RectInBounds (width height : Nat) (r : GlyphRect) : Prop :=
  r.x + r.w ≤ width ∧ r.y + r.h ≤ height

/-- The shelf-packing invariant: the cached rectangles are pairwise
disjoint and inside the texture, and every one lies either entirely above
the current shelf line or inside the current shelf strictly left of the
write cursor. -/
def Packed (a : GlyphAtlas) : Prop :=
  List.Pairwise RectsDisjoint a.rects ∧
  (∀ r ∈ a.rects, RectInBounds a.width a.height r) ∧
  (∀ r ∈ a.rects, r.y + r.h ≤ a.cursorY ∨
    (r.y = a.cursorY ∧ r.x + r.w < a.cursorX ∧ r.y + r.h < a.cursorY + a.rowHeight))

end GlyphAtlas

/-! Concrete states used to instantiate the theorems below. -/

/-- A marked cell distinguishable from the default. -/
def cellX : Cell := { character := 'X', fg := Color.emerald, bg := Color.black, flags := 0 }

/-- A 1×3 terminal whose scroll region is the single row 0 (as DECSTBM `CSI 1;1r`
would set) and whose out-of-region row 1 holds a marked cell. -/
def tRegion : Terminal :=
  { Terminal.new 1 3 with
    scrollBottom := 0
    grid := (Grid.new 1 3).set 0 1 cellX }

/-- A 1×3 terminal with scroll region rows 0–1, a marked cell at row 1 and the
cursor parked at row 2, strictly below the region. -/
def tBelow : Terminal :=
  { Terminal.new 1 3 with
    scrollBottom := 1
    grid := (Grid.new 1 3).set 0 1 cellX
    cursor := { Cursor.default with row := 2 } }

/-- A 2×3 terminal with scroll region the single row 0 and the cursor at the
last column of row 2, below the region, about to wrap on a wide character. -/
def tWrap : Terminal :=
  { Terminal.new 2 3 with
    scrollBottom := 0
    cursor := { Cursor.default with col := 1, row := 2 } }

/-- A 10×10 atlas holding one 9×9 glyph: its shelf is almost full. -/
def atlasNearFull : GlyphAtlas := ((GlyphAtlas.new 10 10).getOrInsert 'a' 9 9).2

/-! Lemmas about the grid. -/

namespace Grid

theorem flatIdx_lt {cols rows c r : Nat} (hc : c < cols) (hr : r < rows) :
    r * cols + c < cols * rows := by
  calc r * cols + c < r * cols + cols := by omega
    _ = (r + 1) * cols := by ring
    _ ≤ rows * cols := Nat.mul_le_mul_right cols (by omega)
    _ = cols * rows := Nat.mul_comm rows cols

theorem flatIdx_inj {cols c r c' r' : Nat} (hc : c < cols) (hc' : c' < cols)
    (h : r * cols + c = r' * cols + c') : r = r' ∧ c = c' := by
  have hcols : 0 < cols := by omega
  have h1 : (c + r * cols) / cols = c / cols + r := Nat.add_mul_div_right c r hcols
  have h2 : (c' + r' * cols) / cols = c' / cols + r' := Nat.add_mul_div_right c' r' hcols
  have hc0 : c / cols = 0 := Nat.div_eq_of_lt hc
  have hc0' : c' / cols = 0 := Nat.div_eq_of_lt hc'
  have hr : r = r' := by
    have := h
    rw [Nat.add_comm (r * cols) c, Nat.add_comm (r' * cols) c'] at this
    rw [this] at h1
    rw [h2, hc0'] at h1
    omega
  exact ⟨hr, by subst hr; omega⟩

@[simp] theorem cols_set (g : Grid) (c r : Nat) (cell : Cell) :
    (g.set c r cell).cols = g.cols := by
  unfold set; split <;> rfl

@[simp] theorem rows_set (g : Grid) (c r : Nat) (cell : Cell) :
    (g.set c r cell).rows = g.rows := by
  unfold set; split <;> rfl

@[simp] theorem length_cells_set (g : Grid) (c r : Nat) (cell : Cell) :
    (g.set c r cell).cells.length = g.cells.length := by
  unfold set; split <;> simp

@[simp] theorem length_dirty_set (g : Grid) (c r : Nat) (cell : Cell) :
    (g.set c r cell).dirtyLines.length = g.dirtyLines.length := by
  unfold set; split <;> simp

theorem WF_set {g : Grid} (hwf : g.WF) (c r : Nat) (cell : Cell) :
    (g.set c r cell).WF := by
  obtain ⟨h1, h2⟩ := hwf
  exact ⟨by simp [h1], by simp [h2]⟩

theorem get_eq_getElem? (g : Grid) (c r : Nat) :
    g.get c r = if c < g.cols ∧ r < g.rows then
      some (g.cells[r * g.cols + c]?.getD Cell.default) else none := by
  unfold get
  rw [List.getD_eq_getElem?_getD]

theorem get_none_left {g : Grid} {c r : Nat} (h : g.cols ≤ c) : g.get c r = none := by
  unfold get
  rw [if_neg]; omega

theorem get_none_right {g : Grid} {c r : Nat} (h : g.rows ≤ r) : g.get c r = none := by
  unfold get
  rw [if_neg]; omega

theorem idx_eq_get {g : Grid} {c r : Nat} (hc : c < g.cols) (hr : r < g.rows) :
    g.get c r = some (g.idx c r) := by
  unfold get idx
  rw [if_pos ⟨hc, hr⟩]

/-- The value/dirty content of set inside the bounds. -/
theorem get_set (g : Grid) (hwf : g.WF) (c r : Nat) (cell : Cell) (c' r' : Nat) :
    (g.set c r cell).get c' r' =
      if c' = c ∧ r' = r ∧ c < g.cols ∧ r < g.rows then some cell
      else g.get c' r' := by
  by_cases hin : c < g.cols ∧ r < g.rows
  · obtain ⟨hlen, -⟩ := hwf
    have hset : g.set c r cell =
        { g with cells := g.cells.set (r * g.cols + c) cell
                 dirtyLines := g.dirtyLines.set r true } := by
      unfold set; rw [if_pos hin]
    rw [hset]
    rw [get_eq_getElem?, get_eq_getElem?]
    simp only
    by_cases hin' : c' < g.cols ∧ r' < g.rows
    · rw [if_pos hin', if_pos hin']
      by_cases heq : c' = c ∧ r' = r
      · obtain ⟨hc, hr⟩ := heq
        subst hc; subst hr
        rw [if_pos ⟨rfl, rfl, hin⟩]
        rw [List.getElem?_set_eq_of_lt _ (by rw [hlen]; exact flatIdx_lt hin'.1 hin'.2)]
        rfl
      · rw [if_neg (by tauto)]
        rw [List.getElem?_set_ne]
        intro hcontra
        obtain ⟨h1, h2⟩ := flatIdx_inj hin.1 hin'.1 hcontra
        exact heq ⟨h2.symm, h1.symm⟩
    · rw [if_neg hin', if_neg hin', if_neg]
      rintro ⟨rfl, rfl, h3, h4⟩
      exact hin' ⟨h3, h4⟩
  · have hset : g.set c r cell = g := by unfold set; rw [if_neg hin]
    rw [hset, if_neg (by tauto)]

theorem sameShape_refl (g : Grid) : g.sameShape g := ⟨rfl, rfl, rfl, rfl⟩

theorem sameShape_trans {g g' g'' : Grid} (h1 : g.sameShape g') (h2 : g'.sameShape g'') :
    g.sameShape g'' := by
  obtain ⟨a1, b1, c1, d1⟩ := h1
  obtain ⟨a2, b2, c2, d2⟩ := h2
  exact ⟨a2.trans a1, b2.trans b1, c2.trans c1, d2.trans d1⟩

theorem sameShape_set (g : Grid) (c r : Nat) (cell : Cell) :
    g.sameShape (g.set c r cell) := ⟨by simp, by simp, by simp, by simp⟩

theorem WF_of_sameShape {g g' : Grid} (hwf : g.WF) (h : g.sameShape g') : g'.WF := by
  obtain ⟨h1, h2⟩ := hwf
  obtain ⟨a, b, c, d⟩ := h
  exact ⟨by rw [c, h1, a, b], by rw [d, h2, b]⟩

theorem sameShape_foldl {α : Type} (f : Grid → α → Grid)
    (hf : ∀ (g : Grid) (a : α), g.sameShape (f g a)) :
    ∀ (l : List α) (g : Grid), g.sameShape (l.foldl f g) := by
  intro l
  induction l with
  | nil => intro g; exact sameShape_refl g
  | cons x xs ih =>
    intro g
    rw [List.foldl_cons]
    exact sameShape_trans (hf g x) (ih (f g x))

theorem length_foldl_set_range (base : Nat) :
    ∀ (m : Nat) (l : List Cell),
      ((List.range m).foldl (fun cs i => cs.set (base + i) Cell.default) l).length
        = l.length := by
  intro m
  induction m with
  | zero => intro l; simp
  | succ m ih =>
    intro l
    rw [List.range_succ, List.foldl_append]
    simp [ih]

theorem sameShape_clearRow (g : Grid) (row : Nat) : g.sameShape (g.clearRow row) := by
  unfold clearRow
  split
  · exact ⟨rfl, rfl, length_foldl_set_range (row * g.cols) g.cols g.cells, by simp⟩
  · exact sameShape_refl g

theorem sameShape_copyRowFrom (g : Grid) (row srcRow : Nat) :
    g.sameShape (g.copyRowFrom row srcRow) := by
  unfold copyRowFrom
  exact sameShape_foldl
    (fun (g2 : Grid) (col : Nat) => g2.set col row (g2.idx col srcRow))
    (fun g2 col => sameShape_set g2 col row (g2.idx col srcRow))
    (List.range g.cols) g

theorem sameShape_clear (g : Grid) : g.sameShape g.clear := by
  unfold clear
  exact ⟨rfl, rfl, by simp, by simp⟩

/-- Filling a contiguous index band with the default cell, as done by the
clear_row loop. -/
theorem getElem?_foldl_set_range (base : Nat) :
    ∀ (m : Nat) (l : List Cell) (j : Nat),
      ((List.range m).foldl (fun cs i => cs.set (base + i) Cell.default) l)[j]? =
        if base ≤ j ∧ j < base + m ∧ j < l.length then some Cell.default else l[j]? := by
  intro m
  induction m with
  | zero =>
    intro l j
    simp only [List.range_zero, List.foldl_nil]
    rw [if_neg (by omega)]
  | succ m ih =>
    intro l j
    rw [List.range_succ, List.foldl_append]
    simp only [List.foldl_cons, List.foldl_nil]
    rw [List.getElem?_set, length_foldl_set_range, ih]
    by_cases hj : base + m = j
    · subst hj
      rw [if_pos rfl]
      by_cases hlt : base + m < l.length
      · rw [if_pos hlt, if_pos (by omega)]
      · rw [if_neg hlt, if_neg (by omega),
          List.getElem?_eq_none (by omega)]
    · rw [if_neg hj]
      by_cases hcond : base ≤ j ∧ j < base + m ∧ j < l.length
      · rw [if_pos hcond, if_pos (by omega)]
      · rw [if_neg hcond, if_neg (by omega)]

theorem row_band_iff {cols c r ρ : Nat} (hc : c < cols) :
    (ρ * cols ≤ r * cols + c ∧ r * cols + c < ρ * cols + cols) ↔ r = ρ := by
  constructor
  · rintro ⟨h1, h2⟩
    have hcols : 0 < cols := by omega
    have hr1 : r < ρ + 1 := by
      have : r * cols < (ρ + 1) * cols := by
        calc r * cols ≤ r * cols + c := by omega
          _ < ρ * cols + cols := h2
          _ = (ρ + 1) * cols := by ring
      exact Nat.lt_of_mul_lt_mul_right this
    have hr2 : ρ < r + 1 := by
      have : ρ * cols < (r + 1) * cols := by
        calc ρ * cols ≤ r * cols + c := h1
          _ < r * cols + cols := by omega
          _ = (r + 1) * cols := by ring
      exact Nat.lt_of_mul_lt_mul_right this
    omega
  · rintro rfl
    omega

theorem clearRow_get (g : Grid) (hwf : g.WF) (ρ c r : Nat) :
    (g.clearRow ρ).get c r =
      if r = ρ ∧ ρ < g.rows ∧ c < g.cols then some Cell.default else g.get c r := by
  obtain ⟨hlen, -⟩ := hwf
  unfold clearRow
  by_cases hρ : ρ < g.rows
  · rw [if_pos hρ]
    rw [get_eq_getElem?, get_eq_getElem?]
    simp only
    by_cases hin : c < g.cols ∧ r < g.rows
    · rw [if_pos hin, if_pos hin]
      rw [getElem?_foldl_set_range]
      by_cases hr : r = ρ
      · subst hr
        have hband : r * g.cols ≤ r * g.cols + c ∧ r * g.cols + c < r * g.cols + g.cols :=
          (row_band_iff hin.1).mpr rfl
        rw [if_pos ⟨hband.1, hband.2, by rw [hlen]; exact flatIdx_lt hin.1 hin.2⟩]
        rw [if_pos ⟨rfl, hρ, hin.1⟩]
        simp
      · rw [if_neg (fun h => hr ((row_band_iff hin.1).mp ⟨h.1, h.2.1⟩))]
        rw [if_neg (by tauto)]
    · rw [if_neg hin, if_neg hin, if_neg]
      rintro ⟨rfl, h2, h3⟩
      exact hin ⟨h3, h2⟩
  · rw [if_neg hρ, if_neg (by tauto)]

theorem clear_get (g : Grid) (hwf : g.WF) (c r : Nat) :
    g.clear.get c r =
      if c < g.cols ∧ r < g.rows then some Cell.default else none := by
  obtain ⟨hlen, -⟩ := hwf
  unfold clear
  rw [get_eq_getElem?]
  simp only
  by_cases hin : c < g.cols ∧ r < g.rows
  · rw [if_pos hin, if_pos hin, List.getElem?_map]
    have hidx : r * g.cols + c < g.cells.length := by
      rw [hlen]; exact flatIdx_lt hin.1 hin.2
    rw [List.getElem?_eq_getElem hidx]
    rfl
  · rw [if_neg hin, if_neg hin]

theorem copyRowAux (g : Grid) (hwf : g.WF) {row srcRow : Nat} (hne : srcRow ≠ row)
    (hsrc : srcRow < g.rows) :
    ∀ (m : Nat) (c r : Nat),
      ((List.range m).foldl (fun acc col => acc.set col row (acc.idx col srcRow)) g).get c r =
        if r = row ∧ c < m ∧ c < g.cols ∧ row < g.rows then some (g.idx c srcRow)
        else g.get c r := by
  intro m
  induction m with
  | zero =>
    intro c r
    simp only [List.range_zero, List.foldl_nil]
    rw [if_neg (by omega)]
  | succ m ih =>
    intro c r
    rw [List.range_succ, List.foldl_append]
    simp only [List.foldl_cons, List.foldl_nil]
    have hshape : g.sameShape
        ((List.range m).foldl (fun acc col => acc.set col row (acc.idx col srcRow)) g) :=
      sameShape_foldl (fun (acc : Grid) (col : Nat) => acc.set col row (acc.idx col srcRow))
        (fun acc col => sameShape_set acc col row (acc.idx col srcRow)) (List.range m) g
    set s := (List.range m).foldl (fun acc col => acc.set col row (acc.idx col srcRow)) g
      with hs
    rw [get_set s (WF_of_sameShape hwf hshape) m row (s.idx m srcRow) c r]
    obtain ⟨hcols, hrows, -, -⟩ := hshape
    by_cases hmaincond : c = m ∧ r = row ∧ m < g.cols ∧ row < g.rows
    · obtain ⟨rfl, rfl, hmc, hrowlt⟩ := hmaincond
      rw [if_pos ⟨rfl, rfl, by rw [hcols]; exact hmc, by rw [hrows]; exact hrowlt⟩,
        if_pos ⟨rfl, by omega, hmc, hrowlt⟩]
      have hsv : s.get c srcRow = g.get c srcRow := by
        rw [ih c srcRow, if_neg (fun h => hne h.1)]
      have h1 : s.get c srcRow = some (s.idx c srcRow) :=
        idx_eq_get (by rw [hcols]; exact hmc) (by rw [hrows]; exact hsrc)
      have h2 : g.get c srcRow = some (g.idx c srcRow) := idx_eq_get hmc hsrc
      rw [h1, h2] at hsv
      rw [Option.some_inj.mp hsv]
    · rw [if_neg (fun h => hmaincond ⟨h.1, h.2.1, by rw [← hcols]; exact h.2.2.1,
        by rw [← hrows]; exact h.2.2.2⟩)]
      rw [ih c r]
      by_cases hcond : r = row ∧ c < m ∧ c < g.cols ∧ row < g.rows
      · rw [if_pos hcond, if_pos ⟨hcond.1, by omega, hcond.2.2⟩]
      · rw [if_neg hcond, if_neg (fun h => by
          rcases Nat.lt_succ_iff_lt_or_eq.mp h.2.1 with h' | h'
          · exact hcond ⟨h.1, h', h.2.2⟩
          · subst h'
            exact hmaincond ⟨rfl, h.1, h.2.2⟩)]

theorem copyRowFrom_get (g : Grid) (hwf : g.WF) {row srcRow : Nat} (hne : srcRow ≠ row)
    (hsrc : srcRow < g.rows) (c r : Nat) :
    (g.copyRowFrom row srcRow).get c r =
      if r = row ∧ c < g.cols ∧ row < g.rows then some (g.idx c srcRow)
      else g.get c r := by
  unfold copyRowFrom
  rw [copyRowAux g hwf hne hsrc g.cols c r]
  by_cases hcond : r = row ∧ c < g.cols ∧ row < g.rows
  · rw [if_pos ⟨hcond.1, hcond.2.1, hcond.2.1, hcond.2.2⟩, if_pos hcond]
  · rw [if_neg (by tauto), if_neg hcond]

theorem clearRowsFold_get :
    ∀ (L : List Nat) (g : Grid), g.WF → ∀ c r,
      (L.foldl (fun acc row => acc.clearRow row) g).get c r =
        if r ∈ L ∧ r < g.rows ∧ c < g.cols then some Cell.default else g.get c r := by
  intro L
  induction L with
  | nil =>
    intro g hwf c r
    simp only [List.foldl_nil, List.not_mem_nil, false_and, if_false]
  | cons ρ L' ih =>
    intro g hwf c r
    rw [List.foldl_cons]
    have hshape := sameShape_clearRow g ρ
    obtain ⟨hcols, hrows, -, -⟩ := hshape
    rw [ih (g.clearRow ρ) (WF_of_sameShape hwf (sameShape_clearRow g ρ)) c r]
    rw [hcols, hrows, clearRow_get g hwf ρ c r]
    by_cases h1 : r ∈ L' ∧ r < g.rows ∧ c < g.cols
    · rw [if_pos h1, if_pos ⟨List.mem_cons_of_mem ρ h1.1, h1.2⟩]
    · rw [if_neg h1]
      by_cases h2 : r = ρ ∧ ρ < g.rows ∧ c < g.cols
      · rw [if_pos h2, if_pos ⟨by rw [h2.1]; exact List.mem_cons_self ρ L',
          h2.1 ▸ h2.2.1, h2.2.2⟩]
      · rw [if_neg h2, if_neg (fun h => by
          rcases List.mem_cons.mp h.1 with h' | h'
          · exact h2 ⟨h', h' ▸ h.2.1, h.2.2⟩
          · exact h1 ⟨h', h.2⟩)]

/-- The row-copy phase of scroll_up: processing rows a, a+1, …, a+k-1 in
ascending order, each row receiving the contents of the row n below when
that row is still inside the region. -/
theorem upCopyAux {n sb : Nat} (hn : 1 ≤ n) :
    ∀ (k a : Nat) (g : Grid), g.WF → sb < g.rows → ∀ c r,
      ((List.range' a k).foldl
          (fun acc row => if row + n ≤ sb then acc.copyRowFrom row (row + n) else acc)
          g).get c r =
        if a ≤ r ∧ r < a + k ∧ r + n ≤ sb then g.get c (r + n) else g.get c r := by
  intro k
  induction k with
  | zero =>
    intro a g hwf hsb c r
    simp only [List.range'_zero, List.foldl_nil]
    rw [if_neg (by omega)]
  | succ k ih =>
    intro a g hwf hsb c r
    rw [List.range'_succ a k 1, List.foldl_cons]
    set g1 := if a + n ≤ sb then g.copyRowFrom a (a + n) else g with hg1def
    have hshape1 : g.sameShape g1 := by
      rw [hg1def]
      by_cases ha : a + n ≤ sb
      · rw [if_pos ha]; exact sameShape_copyRowFrom g a (a + n)
      · rw [if_neg ha]; exact sameShape_refl g
    obtain ⟨hc1, hr1, -, -⟩ := id hshape1
    have hchar : ∀ c' r', g1.get c' r' =
        if a + n ≤ sb ∧ r' = a ∧ c' < g.cols ∧ a < g.rows
        then some (g.idx c' (a + n)) else g.get c' r' := by
      intro c' r'
      rw [hg1def]
      by_cases ha : a + n ≤ sb
      · rw [if_pos ha, copyRowFrom_get g hwf (by omega) (by omega) c' r']
        by_cases hcc : r' = a ∧ c' < g.cols ∧ a < g.rows
        · rw [if_pos hcc, if_pos ⟨ha, hcc⟩]
        · rw [if_neg hcc, if_neg (by tauto)]
      · rw [if_neg ha, if_neg (by tauto)]
    rw [ih (a + 1) g1 (WF_of_sameShape hwf hshape1) (by omega) c r]
    by_cases hA : a + 1 ≤ r ∧ r < a + 1 + k ∧ r + n ≤ sb
    · rw [if_pos hA, hchar c (r + n), if_neg (by omega), if_pos (by omega)]
    · rw [if_neg hA, hchar c r]
      by_cases hr : r = a
      · subst hr
        by_cases hrn : r + n ≤ sb
        · by_cases hc : c < g.cols
          · rw [if_pos ⟨hrn, rfl, hc, by omega⟩, if_pos (by omega),
              idx_eq_get hc (by omega)]
          · rw [if_neg (fun h => hc h.2.2.1), if_pos (by omega),
              get_none_left (by omega), get_none_left (by omega)]
        · rw [if_neg (fun h => hrn h.1), if_neg (by omega)]
      · rw [if_neg (fun h => hr h.2.1), if_neg (by omega)]

/-- The row-copy phase of scroll_down: processing rows a+k-1, …, a+1, a in
descending order, each row receiving the contents of the row n above. -/
theorem downCopyAux {n st : Nat} (hn : 1 ≤ n) :
    ∀ (k a : Nat) (g : Grid), g.WF → st + n ≤ a → a + k ≤ g.rows → ∀ c r,
      ((List.range' a k).reverse.foldl
          (fun acc row => if st ≤ row - n then acc.copyRowFrom row (row - n) else acc)
          g).get c r =
        if a ≤ r ∧ r < a + k then g.get c (r - n) else g.get c r := by
  intro k
  induction k with
  | zero =>
    intro a g hwf ha hak c r
    simp only [List.range'_zero, List.reverse_nil, List.foldl_nil]
    rw [if_neg (by omega)]
  | succ k ih =>
    intro a g hwf ha hak c r
    rw [List.range'_succ a k 1, List.reverse_cons, List.foldl_append]
    simp only [List.foldl_cons, List.foldl_nil]
    set s := (List.range' (a + 1) k).reverse.foldl
      (fun acc row => if st ≤ row - n then acc.copyRowFrom row (row - n) else acc) g
      with hsdef
    have hshape : g.sameShape s := by
      rw [hsdef]
      exact sameShape_foldl _
        (fun g2 row => by
          by_cases h : st ≤ row - n
          · rw [if_pos h]; exact sameShape_copyRowFrom g2 row (row - n)
          · rw [if_neg h]; exact sameShape_refl g2)
        _ g
    obtain ⟨hc1, hr1, -, -⟩ := id hshape
    have hichar : ∀ c' r', s.get c' r' =
        if a + 1 ≤ r' ∧ r' < a + 1 + k then g.get c' (r' - n) else g.get c' r' := by
      intro c' r'
      rw [hsdef]
      exact ih (a + 1) g hwf (by omega) (by omega) c' r'
    rw [if_pos (show st ≤ a - n by omega)]
    rw [copyRowFrom_get s (WF_of_sameShape hwf hshape) (by omega)
      (by rw [hr1]; omega) c r]
    rw [hc1, hr1]
    by_cases hr : r = a
    · subst hr
      by_cases hc : c < g.cols
      · rw [if_pos ⟨rfl, hc, by omega⟩, if_pos (by omega)]
        have hsv : s.get c (r - n) = g.get c (r - n) := by
          rw [hichar c (r - n), if_neg (by omega)]
        have h1 : s.get c (r - n) = some (s.idx c (r - n)) :=
          idx_eq_get (by rw [hc1]; exact hc) (by rw [hr1]; omega)
        have h2 : g.get c (r - n) = some (g.idx c (r - n)) := idx_eq_get hc (by omega)
        rw [h1, h2] at hsv
        rw [Option.some_inj.mp hsv, idx_eq_get hc (by omega)]
      · rw [if_neg (fun h => hc h.2.1), hichar c r, if_neg (by omega), if_pos (by omega),
          get_none_left (by omega), get_none_left (by omega)]
    · rw [if_neg (fun h => hr h.1), hichar c r]
      by_cases hB : a + 1 ≤ r ∧ r < a + 1 + k
      · rw [if_pos hB, if_pos (by omega)]
      · rw [if_neg hB, if_neg (by omega)]

/-- Per-cell behaviour of the scroll_up region operation when the amount
does not exceed the region height: rows of the region receive the row n
below, the bottom n rows of the region are cleared, and rows outside the
region are untouched. -/
theorem scrollRegionUp_get (g : Grid) (hwf : g.WF) {st sb n : Nat} (hst : st ≤ sb)
    (hsb : sb < g.rows) (hn : 1 ≤ n) (hreg : st + n ≤ sb + 1) (c r : Nat) :
    (g.scrollRegionUp st sb n).get c r =
      if st ≤ r ∧ r ≤ sb then
        (if r + n ≤ sb then g.get c (r + n)
         else if c < g.cols then some Cell.default else none)
      else g.get c r := by
  unfold scrollRegionUp
  simp only [rangeIncl]
  rw [if_pos (show n ≤ sb + 1 by omega)]
  set copied := (List.range' st (sb - n + 1 - st)).foldl
    (fun acc row => if row + n ≤ sb then acc.copyRowFrom row (row + n) else acc) g
    with hcopdef
  have hshape : g.sameShape copied := by
    rw [hcopdef]
    exact sameShape_foldl _
      (fun g2 row => by
        by_cases h : row + n ≤ sb
        · rw [if_pos h]; exact sameShape_copyRowFrom g2 row (row + n)
        · rw [if_neg h]; exact sameShape_refl g2)
      _ g
  obtain ⟨hc1, hr1, -, -⟩ := id hshape
  have hcopchar : ∀ c' r', copied.get c' r' =
      if st ≤ r' ∧ r' < st + (sb - n + 1 - st) ∧ r' + n ≤ sb then g.get c' (r' + n)
      else g.get c' r' := by
    intro c' r'
    rw [hcopdef]
    exact upCopyAux hn (sb - n + 1 - st) st g hwf hsb c' r'
  rw [clearRowsFold_get (List.range' (sb + 1 - n) (sb + 1 - (sb + 1 - n))) copied
    (WF_of_sameShape hwf hshape) c r]
  rw [hc1, hr1, hcopchar c r]
  by_cases hclr : r ∈ List.range' (sb + 1 - n) (sb + 1 - (sb + 1 - n)) ∧
      r < g.rows ∧ c < g.cols
  · have hmem := List.mem_range'_1.mp hclr.1
    rw [if_pos hclr, if_pos (show st ≤ r ∧ r ≤ sb by omega), if_neg (by omega),
      if_pos hclr.2.2]
  · rw [if_neg hclr]
    rw [List.mem_range'_1] at hclr
    by_cases hcopy : st ≤ r ∧ r < st + (sb - n + 1 - st) ∧ r + n ≤ sb
    · rw [if_pos hcopy, if_pos (show st ≤ r ∧ r ≤ sb by omega), if_pos (by omega)]
    · rw [if_neg hcopy]
      by_cases hin : st ≤ r ∧ r ≤ sb
      · rw [if_pos hin, if_neg (show ¬r + n ≤ sb by omega)]
        have hcge : ¬c < g.cols := fun hc => hclr ⟨⟨by omega, by omega⟩, by omega, hc⟩
        rw [if_neg hcge, get_none_left (by omega)]
      · rw [if_neg hin]

/-- Per-cell behaviour of the scroll_down region operation when the amount
does not exceed the region height: rows of the region receive the row n
above, the top n rows of the region are cleared, and rows outside the
region are untouched. -/
theorem scrollRegionDown_get (g : Grid) (hwf : g.WF) {st sb n : Nat} (hst : st ≤ sb)
    (hsb : sb < g.rows) (hn : 1 ≤ n) (hreg : st + n ≤ sb + 1) (c r : Nat) :
    (g.scrollRegionDown st sb n).get c r =
      if st ≤ r ∧ r ≤ sb then
        (if st + n ≤ r then g.get c (r - n)
         else if c < g.cols then some Cell.default else none)
      else g.get c r := by
  unfold scrollRegionDown
  simp only [rangeIncl]
  set copied := (List.range' (st + n) (sb + 1 - (st + n))).reverse.foldl
    (fun acc row => if st ≤ row - n then acc.copyRowFrom row (row - n) else acc) g
    with hcopdef
  have hshape : g.sameShape copied := by
    rw [hcopdef]
    exact sameShape_foldl _
      (fun g2 row => by
        by_cases h : st ≤ row - n
        · rw [if_pos h]; exact sameShape_copyRowFrom g2 row (row - n)
        · rw [if_neg h]; exact sameShape_refl g2)
      _ g
  obtain ⟨hc1, hr1, -, -⟩ := id hshape
  have hcopchar : ∀ c' r', copied.get c' r' =
      if st + n ≤ r' ∧ r' < st + n + (sb + 1 - (st + n)) then g.get c' (r' - n)
      else g.get c' r' := by
    intro c' r'
    rw [hcopdef]
    exact downCopyAux hn (sb + 1 - (st + n)) (st + n) g hwf (by omega) (by omega) c' r'
  have hmapmem : ∀ r', r' ∈ (List.range n).map (st + ·) ↔ st ≤ r' ∧ r' < st + n := by
    intro r'
    rw [List.mem_map]
    constructor
    · rintro ⟨i, hi, rfl⟩
      rw [List.mem_range] at hi
      omega
    · rintro ⟨h1, h2⟩
      exact ⟨r' - st, List.mem_range.mpr (by omega), by omega⟩
  rw [clearRowsFold_get ((List.range n).map (st + ·)) copied
    (WF_of_sameShape hwf hshape) c r]
  rw [hc1, hr1, hcopchar c r]
  by_cases hclr : r ∈ (List.range n).map (st + ·) ∧ r < g.rows ∧ c < g.cols
  · have hmem := (hmapmem r).mp hclr.1
    rw [if_pos hclr, if_pos (show st ≤ r ∧ r ≤ sb by omega), if_neg (by omega),
      if_pos hclr.2.2]
  · rw [if_neg hclr]
    rw [hmapmem r] at hclr
    by_cases hcopy : st + n ≤ r ∧ r < st + n + (sb + 1 - (st + n))
    · rw [if_pos hcopy, if_pos (show st ≤ r ∧ r ≤ sb by omega), if_pos (by omega)]
    · rw [if_neg hcopy]
      by_cases hin : st ≤ r ∧ r ≤ sb
      · rw [if_pos hin, if_neg (show ¬st + n ≤ r by omega)]
        have hcge : ¬c < g.cols := fun hc => hclr ⟨⟨by omega, by omega⟩, by omega, hc⟩
        rw [if_neg hcge, get_none_left (by omega)]
      · rw [if_neg hin]

end Grid

/-! Lemmas about the terminal. -/

namespace Terminal

theorem activeGrid_setActive (t : Terminal) (g : Grid) :
    (t.setActive g).activeGrid = g := by
  unfold setActive activeGrid
  by_cases h : t.mode.altScreen <;> simp [h]

theorem setActive_cursor (t : Terminal) (g : Grid) :
    (t.setActive g).cursor = t.cursor := by
  unfold setActive; split <;> rfl

theorem setActive_mode (t : Terminal) (g : Grid) :
    (t.setActive g).mode = t.mode := by
  unfold setActive; split <;> rfl

theorem setActive_savedCursor (t : Terminal) (g : Grid) :
    (t.setActive g).savedCursor = t.savedCursor := by
  unfold setActive; split <;> rfl

theorem setActive_scrollTop (t : Terminal) (g : Grid) :
    (t.setActive g).scrollTop = t.scrollTop := by
  unfold setActive; split <;> rfl

theorem setActive_scrollBottom (t : Terminal) (g : Grid) :
    (t.setActive g).scrollBottom = t.scrollBottom := by
  unfold setActive; split <;> rfl

theorem setActive_grid_of_alt (t : Terminal) (g : Grid) (h : t.mode.altScreen = true) :
    (t.setActive g).grid = t.grid := by
  unfold setActive
  rw [if_pos h]

theorem activeGrid_scrollUpOp (t : Terminal) (n : Nat) :
    (t.scrollUpOp n).activeGrid =
      t.activeGrid.scrollRegionUp t.scrollTop t.scrollBottom n := by
  unfold scrollUpOp
  exact activeGrid_setActive t _

theorem activeGrid_scrollDownOp (t : Terminal) (n : Nat) :
    (t.scrollDownOp n).activeGrid =
      t.activeGrid.scrollRegionDown t.scrollTop t.scrollBottom n := by
  unfold scrollDownOp
  exact activeGrid_setActive t _

theorem cursor_scrollUpOp (t : Terminal) (n : Nat) :
    (t.scrollUpOp n).cursor = t.cursor := setActive_cursor t _

theorem cursor_scrollDownOp (t : Terminal) (n : Nat) :
    (t.scrollDownOp n).cursor = t.cursor := setActive_cursor t _

end Terminal

theorem tabStops_mem (cols x : Nat) :
    x ∈ tabStops cols ↔ x % 8 = 0 ∧ 8 ≤ x ∧ x < cols := by
  unfold tabStops
  rw [List.mem_map]
  constructor
  · rintro ⟨k, hk, rfl⟩
    rw [List.mem_range] at hk
    have h8 : (k + 1) * 8 ≤ cols - 1 :=
      (Nat.le_div_iff_mul_le (by norm_num)).mp (by omega)
    refine ⟨by omega, by omega, by omega⟩
  · rintro ⟨h1, h2, h3⟩
    refine ⟨x / 8 - 1, List.mem_range.mpr ?_, by omega⟩
    have h8 : x / 8 ≤ (cols - 1) / 8 :=
      Nat.div_le_div_right (by omega)
    omega

/-! The claims. -/

/-- C1: the claimed invariant `cursor.col < cols` and
`scroll_top ≤ scroll_bottom` is broken by reachable CSI dispatches.  CSI G
(CHA) with parameter 100 on an 80×24 terminal stores column 99 without
clamping, and CSI r (DECSTBM) with top parameter 30 on a 4×4 terminal
stores scroll_top = 29 above scroll_bottom = 3. -/
theorem claim_C1 :
    ((Terminal.new 80 24).csiCha 100).cursor.col = 99 ∧
    ¬ ((Terminal.new 80 24).csiCha 100).cursor.col
        < ((Terminal.new 80 24).csiCha 100).activeGrid.cols ∧
    ((Terminal.new 4 4).csiDecstbm 30 4).scrollTop = 29 ∧
    ¬ ((Terminal.new 4 4).csiDecstbm 30 4).scrollTop
        ≤ ((Terminal.new 4 4).csiDecstbm 30 4).scrollBottom := by
  refine ⟨rfl, ?_, rfl, ?_⟩ <;> decide

/-- C2 counterexample: resize does not reset scroll_top to 0.  On a 4×4
terminal whose scroll region was set to rows 1–3 by DECSTBM, resizing to
5×5 leaves scroll_top = 1, while the claim demands scroll_top = 0. -/
theorem claim_C2_counterexample :
    (((Terminal.new 4 4).csiDecstbm 2 4).resize 5 5).scrollTop ≠ 0 := by
  decide

/-- C2 amended: resize propagates to both grids, sets scroll_bottom to
rows - 1 but leaves scroll_top unchanged, clamps the cursor into the new
bounds, and recomputes the tab stops as exactly the multiples of 8 in
[8, cols). -/
theorem claim_C2 (t : Terminal) (cols rows : Nat) (hc : 1 ≤ cols) (hr : 1 ≤ rows) :
    (t.resize cols rows).grid = t.grid.resize cols rows ∧
    (t.resize cols rows).altGrid = t.altGrid.resize cols rows ∧
    (t.resize cols rows).scrollBottom = rows - 1 ∧
    (t.resize cols rows).scrollTop = t.scrollTop ∧
    (t.resize cols rows).cursor.col = min t.cursor.col (cols - 1) ∧
    (t.resize cols rows).cursor.row = min t.cursor.row (rows - 1) ∧
    (t.resize cols rows).cursor.col < cols ∧
    (t.resize cols rows).cursor.row < rows ∧
    ∀ x, x ∈ (t.resize cols rows).tabs ↔ x % 8 = 0 ∧ 8 ≤ x ∧ x < cols := by
  refine ⟨rfl, rfl, rfl, rfl, ?_, ?_, ?_, ?_, fun x => tabStops_mem cols x⟩
  · show (if t.cursor.col ≥ cols then cols - 1 else t.cursor.col) = min t.cursor.col (cols - 1)
    split <;> omega
  · show (if t.cursor.row ≥ rows then rows - 1 else t.cursor.row) = min t.cursor.row (rows - 1)
    split <;> omega
  · show (if t.cursor.col ≥ cols then cols - 1 else t.cursor.col) < cols
    split <;> omega
  · show (if t.cursor.row ≥ rows then rows - 1 else t.cursor.row) < rows
    split <;> omega

/-- C2 witness: the amended resize behaviour at a concrete state. -/
theorem claim_C2_witness :
    (1 ≤ 5 ∧ 1 ≤ 4) ∧
    ((tBelow.resize 5 4).scrollTop = tBelow.scrollTop ∧
      (tBelow.resize 5 4).scrollBottom = 3 ∧
      (tBelow.resize 5 4).cursor.row = min tBelow.cursor.row 3) := by
  have h := claim_C2 tBelow 5 4 (by omega) (by omega)
  exact ⟨⟨by omega, by omega⟩, h.2.2.2.1, h.2.2.1, h.2.2.2.2.2.1⟩

/-- C3 counterexample: scroll_down touches a row outside the scroll
region.  On a 1×3 terminal whose region is the single row 0
(scroll_top = scroll_bottom = 0 < 3 = rows) and whose row 1 — outside the
region — holds a marked cell, scroll_down(2) clears that out-of-region
cell, while the claim says every cell outside the region is left
unchanged for every n ≥ 1. -/
theorem claim_C3_counterexample :
    tRegion.scrollTop = 0 ∧ tRegion.scrollBottom = 0 ∧
    tRegion.activeGrid.rows = 3 ∧
    tRegion.activeGrid.get 0 1 = some cellX ∧
    (tRegion.scrollDownOp 2).activeGrid.get 0 1 ≠ some cellX := by
  refine ⟨rfl, rfl, rfl, by decide, by decide⟩

/-- C3 amended: when 1 ≤ n and the amount does not exceed the region
height (scroll_top + n ≤ scroll_bottom + 1), scroll_up(n) and
scroll_down(n) shift the rows of the inclusive region
[scroll_top, scroll_bottom] of the active grid by n, clear the vacated
rows to default cells, and leave every cell outside the region unchanged;
for larger n, scroll_down clears rows [scroll_top, scroll_top + n) even
beyond the region, and the lower bound of scroll_up's clear loop
underflows (a debug build panics; a release build clears nothing). -/
theorem claim_C3 (t : Terminal) (n : Nat) (hwf : t.activeGrid.WF)
    (hst : t.scrollTop ≤ t.scrollBottom)
    (hsb : t.scrollBottom < t.activeGrid.rows) (hn : 1 ≤ n)
    (hreg : t.scrollTop + n ≤ t.scrollBottom + 1) :
    (∀ c r, (t.scrollUpOp n).activeGrid.get c r =
      if t.scrollTop ≤ r ∧ r ≤ t.scrollBottom then
        (if r + n ≤ t.scrollBottom then t.activeGrid.get c (r + n)
         else if c < t.activeGrid.cols then some Cell.default else none)
      else t.activeGrid.get c r) ∧
    (∀ c r, (t.scrollDownOp n).activeGrid.get c r =
      if t.scrollTop ≤ r ∧ r ≤ t.scrollBottom then
        (if t.scrollTop + n ≤ r then t.activeGrid.get c (r - n)
         else if c < t.activeGrid.cols then some Cell.default else none)
      else t.activeGrid.get c r) := by
  constructor
  · intro c r
    rw [Terminal.activeGrid_scrollUpOp t n]
    exact t.activeGrid.scrollRegionUp_get hwf hst hsb hn hreg c r
  · intro c r
    rw [Terminal.activeGrid_scrollDownOp t n]
    exact t.activeGrid.scrollRegionDown_get hwf hst hsb hn hreg c r

/-- C3 witness: the scroll characterization at a concrete state, amount 1
on the one-row region: the region row is cleared and the out-of-region
marked row keeps its cell. -/
theorem claim_C3_witness :
    (tRegion.activeGrid.WF ∧ tRegion.scrollTop ≤ tRegion.scrollBottom ∧
      tRegion.scrollBottom < tRegion.activeGrid.rows ∧
      tRegion.scrollTop + 1 ≤ tRegion.scrollBottom + 1) ∧
    (tRegion.scrollUpOp 1).activeGrid.get 0 1 = tRegion.activeGrid.get 0 1 ∧
    (tRegion.scrollDownOp 1).activeGrid.get 0 0 = some Cell.default := by
  have h := claim_C3 tRegion 1 (by decide) (by decide) (by decide) (by omega) (by decide)
  refine ⟨⟨by decide, by decide, by decide, by decide⟩, ?_, ?_⟩
  · rw [h.1 0 1]
    decide
  · rw [h.2 0 0]
    decide

/-- C5 counterexample: with the cursor strictly below the scroll region
(cursor.row = 2 > 1 = scroll_bottom on a 1×3 terminal), linefeed does not
advance the row — it scrolls the region instead — while the claim says it
advances the row and does not scroll. -/
theorem claim_C5_counterexample :
    tBelow.scrollBottom < tBelow.cursor.row ∧
    (tBelow.linefeed).cursor.row = tBelow.cursor.row ∧
    (tBelow.linefeed).activeGrid ≠ tBelow.activeGrid := by
  refine ⟨by decide, by decide, by decide⟩

/-- C5 amended: linefeed advances the row by one when the cursor is
strictly above scroll_bottom; when the cursor is at or below
scroll_bottom — not only exactly at it — the region scrolls up one row,
the cursor is unchanged, and on a well-formed grid with a valid region
the active grid shows the one-row shift with the bottom region row
cleared. -/
theorem claim_C5 (t : Terminal) (hwf : t.activeGrid.WF)
    (hst : t.scrollTop ≤ t.scrollBottom)
    (hsb : t.scrollBottom < t.activeGrid.rows) :
    (t.cursor.row < t.scrollBottom →
      t.linefeed = { t with cursor := { t.cursor with row := t.cursor.row + 1 } }) ∧
    (t.scrollBottom ≤ t.cursor.row →
      (t.linefeed).cursor = t.cursor ∧
      ∀ c r, (t.linefeed).activeGrid.get c r =
        if t.scrollTop ≤ r ∧ r ≤ t.scrollBottom then
          (if r + 1 ≤ t.scrollBottom then t.activeGrid.get c (r + 1)
           else if c < t.activeGrid.cols then some Cell.default else none)
        else t.activeGrid.get c r) := by
  constructor
  · intro h
    unfold Terminal.linefeed
    rw [if_neg (by omega)]
  · intro h
    have hlf : t.linefeed = t.scrollUpOp 1 := by
      unfold Terminal.linefeed
      rw [if_pos (by omega)]
    rw [hlf]
    refine ⟨Terminal.cursor_scrollUpOp t 1, fun c r => ?_⟩
    rw [Terminal.activeGrid_scrollUpOp t 1]
    exact t.activeGrid.scrollRegionUp_get hwf hst hsb (by omega) (by omega) c r

theorem writeGlyph_eq_claim (t1 : Terminal) (cols w : Nat) (c : Char)
    (h : w = 2 → t1.cursor.col + 1 < cols) :
    t1.writeGlyph cols w c = t1.writeGlyphClaim w c := by
  unfold Terminal.writeGlyph Terminal.writeGlyphClaim
  dsimp only
  by_cases hw2 : w = 2
  · rw [if_pos ⟨hw2, h hw2⟩, if_pos hw2]
  · rw [if_neg (fun hh => hw2 hh.1), if_neg hw2]

/-- C4 counterexample: the claim's CR+LF description fails when the cursor
sits strictly below the scroll region.  On a 2×3 terminal with scroll
region the single row 0 and the cursor at (1, 2) — satisfying the cursor
invariant — writing a width-2 character wraps, and the code scrolls the
region and pulls the cursor up to row 0, while the claim's description
advances the row to 3. -/
theorem claim_C4_counterexample :
    tWrap.cursor.col < tWrap.activeGrid.cols ∧
    tWrap.cursor.row < tWrap.activeGrid.rows ∧
    (tWrap.inputChar 2 '字').cursor.row = 0 ∧
    (tWrap.inputCharClaim 2 '字').cursor.row = 3 ∧
    tWrap.inputChar 2 '字' ≠ tWrap.inputCharClaim 2 '字' := by
  refine ⟨by decide, by decide, by decide, by decide, by decide⟩

/-- C4 amended: for a printable character of width w ∈ {1,2} with
w ≤ cols, starting from a state satisfying the cursor invariant whose
cursor row is not below the scroll region (cursor.row ≤ scroll_bottom),
input_char behaves exactly as the claim describes: on overflow it performs
a CR+LF (scrolling when at scroll_bottom) under AutoWrap or clamps the
column to cols - w without AutoWrap, then writes the styled character, a
styled blank spacer for w = 2, and advances the column by w. -/
theorem claim_C4 (t : Terminal) (w : Nat) (c : Char)
    (hpr : 0x20 ≤ c.toNat) (hw : w = 1 ∨ w = 2)
    (hwc : w ≤ t.activeGrid.cols) (hcol : t.cursor.col < t.activeGrid.cols)
    (hrow : t.cursor.row ≤ t.scrollBottom) :
    t.inputChar w c = t.inputCharClaim w c := by
  unfold Terminal.inputChar Terminal.inputCharClaim
  rw [if_neg (by omega)]
  by_cases hov : t.cursor.col + w > t.activeGrid.cols
  · by_cases hauto : t.mode.autoWrap
    · simp only [if_pos hov, hauto, if_true]
      by_cases hreq : t.cursor.row = t.scrollBottom
      · rw [if_pos (show t.cursor.row + 1 > t.scrollBottom by omega), if_pos hreq]
        have key : ∀ (s1 s2 : Terminal), s1 = s2 →
            (w = 2 → s2.cursor.col + 1 < t.activeGrid.cols) →
            s1.writeGlyph t.activeGrid.cols w c = s2.writeGlyphClaim w c := by
          rintro s1 s2 rfl hcc
          exact writeGlyph_eq_claim s1 t.activeGrid.cols w c hcc
        apply key
        · unfold Terminal.scrollUpOp Terminal.setActive Terminal.activeGrid
          by_cases halt : t.mode.altScreen <;> simp [halt, hreq]
        · intro hw2
          rw [Terminal.cursor_scrollUpOp]
          show (0 : Nat) + 1 < t.activeGrid.cols
          omega
      · rw [if_neg (show ¬ t.cursor.row + 1 > t.scrollBottom by omega), if_neg hreq]
        apply writeGlyph_eq_claim
        intro hw2
        show (0 : Nat) + 1 < t.activeGrid.cols
        omega
    · simp only [if_pos hov, hauto, Bool.false_eq_true, if_false]
      apply writeGlyph_eq_claim
      intro hw2
      show t.activeGrid.cols - w + 1 < t.activeGrid.cols
      omega
  · simp only [if_neg hov]
    exact writeGlyph_eq_claim t _ w c (fun hw2 => by omega)

/-- C4 witness: the amended input_char equivalence at a concrete state. -/
theorem claim_C4_witness :
    (0x20 ≤ 'A'.toNat ∧ (1 = 1 ∨ 1 = 2) ∧ 1 ≤ (Terminal.new 2 2).activeGrid.cols ∧
      (Terminal.new 2 2).cursor.col < (Terminal.new 2 2).activeGrid.cols ∧
      (Terminal.new 2 2).cursor.row ≤ (Terminal.new 2 2).scrollBottom) ∧
    (Terminal.new 2 2).inputChar 1 'A' = (Terminal.new 2 2).inputCharClaim 1 'A' :=
  ⟨⟨by decide, Or.inl rfl, by decide, by decide, by decide⟩,
    claim_C4 (Terminal.new 2 2) 1 'A' (by decide) (Or.inl rfl) (by decide)
      (by decide) (by decide)⟩

/-- C5 witness: linefeed at the bottom of the region on a concrete state:
the cursor stays and the marked row 1 cell moves up to row 0. -/
theorem claim_C5_witness :
    (tBelow.activeGrid.WF ∧ tBelow.scrollTop ≤ tBelow.scrollBottom ∧
      tBelow.scrollBottom < tBelow.activeGrid.rows ∧
      tBelow.scrollBottom ≤ tBelow.cursor.row) ∧
    (tBelow.linefeed).cursor = tBelow.cursor ∧
    (tBelow.linefeed).activeGrid.get 0 0 = some cellX := by
  have h := (claim_C5 tBelow (by decide) (by decide) (by decide)).2 (by decide)
  refine ⟨⟨by decide, by decide, by decide, by decide⟩, h.1, ?_⟩
  rw [h.2 0 0]
  decide


namespace Terminal

theorem scrollUpOp_pres (t : Terminal) (n : Nat) (halt : t.mode.altScreen = true) :
    (t.scrollUpOp n).mode = t.mode ∧ (t.scrollUpOp n).grid = t.grid ∧
    (t.scrollUpOp n).savedCursor = t.savedCursor :=
  ⟨setActive_mode t _, setActive_grid_of_alt t _ halt, setActive_savedCursor t _⟩

theorem scrollDownOp_pres (t : Terminal) (n : Nat) (halt : t.mode.altScreen = true) :
    (t.scrollDownOp n).mode = t.mode ∧ (t.scrollDownOp n).grid = t.grid ∧
    (t.scrollDownOp n).savedCursor = t.savedCursor :=
  ⟨setActive_mode t _, setActive_grid_of_alt t _ halt, setActive_savedCursor t _⟩

theorem linefeed_pres (t : Terminal) (halt : t.mode.altScreen = true) :
    (t.linefeed).mode = t.mode ∧ (t.linefeed).grid = t.grid ∧
    (t.linefeed).savedCursor = t.savedCursor := by
  unfold linefeed
  split
  · exact scrollUpOp_pres t 1 halt
  · exact ⟨rfl, rfl, rfl⟩

theorem handleControlChar_pres (t : Terminal) (c : Char) (halt : t.mode.altScreen = true) :
    (t.handleControlChar c).mode = t.mode ∧ (t.handleControlChar c).grid = t.grid ∧
    (t.handleControlChar c).savedCursor = t.savedCursor := by
  unfold handleControlChar
  split
  · exact linefeed_pres t halt
  · split
    · exact ⟨rfl, rfl, rfl⟩
    · split
      · unfold tabOp
        cases hf : t.tabs.find? (fun stop => decide (stop > t.cursor.col)) <;> simp [hf]
      · split
        · exact ⟨rfl, rfl, rfl⟩
        · exact ⟨rfl, rfl, rfl⟩

theorem writeGlyph_pres (t1 : Terminal) (cols w : Nat) (c : Char)
    (halt : t1.mode.altScreen = true) :
    (t1.writeGlyph cols w c).mode = t1.mode ∧ (t1.writeGlyph cols w c).grid = t1.grid ∧
    (t1.writeGlyph cols w c).savedCursor = t1.savedCursor := by
  unfold writeGlyph
  dsimp only
  split
  · refine ⟨?_, ?_, ?_⟩
    · rw [setActive_mode, setActive_mode]
    · rw [setActive_grid_of_alt _ _ (by rw [setActive_mode]; exact halt),
        setActive_grid_of_alt _ _ halt]
    · rw [setActive_savedCursor, setActive_savedCursor]
  · exact ⟨setActive_mode t1 _, setActive_grid_of_alt t1 _ halt, setActive_savedCursor t1 _⟩

theorem inputChar_pres (t : Terminal) (w : Nat) (c : Char) (halt : t.mode.altScreen = true) :
    (t.inputChar w c).mode = t.mode ∧ (t.inputChar w c).grid = t.grid ∧
    (t.inputChar w c).savedCursor = t.savedCursor := by
  unfold inputChar
  split
  · exact handleControlChar_pres t c halt
  · dsimp only
    have h1 : ∀ t1 : Terminal,
        t1.mode = t.mode ∧ t1.grid = t.grid ∧ t1.savedCursor = t.savedCursor →
        (t1.writeGlyph t.activeGrid.cols w c).mode = t.mode ∧
        (t1.writeGlyph t.activeGrid.cols w c).grid = t.grid ∧
        (t1.writeGlyph t.activeGrid.cols w c).savedCursor = t.savedCursor := by
      rintro t1 ⟨hm, hg, hs⟩
      obtain ⟨a, b, d⟩ := writeGlyph_pres t1 t.activeGrid.cols w c (by rw [hm]; exact halt)
      exact ⟨a.trans hm, b.trans hg, d.trans hs⟩
    refine h1 _ ?_
    split
    · split
      · split
        · refine ⟨(scrollUpOp_pres _ 1 ?_).1, (scrollUpOp_pres _ 1 ?_).2.1,
            (scrollUpOp_pres _ 1 ?_).2.2⟩ <;> exact halt
        · exact ⟨rfl, rfl, rfl⟩
      · exact ⟨rfl, rfl, rfl⟩
    · exact ⟨rfl, rfl, rfl⟩

end Terminal

namespace Terminal

theorem foldSetActive_pres {α : Type} (f : Terminal → α → Grid) :
    ∀ (l : List α) (t : Terminal), t.mode.altScreen = true →
      (l.foldl (fun acc x => acc.setActive (f acc x)) t).mode = t.mode ∧
      (l.foldl (fun acc x => acc.setActive (f acc x)) t).grid = t.grid ∧
      (l.foldl (fun acc x => acc.setActive (f acc x)) t).savedCursor = t.savedCursor := by
  intro l
  induction l with
  | nil => exact fun t _ => ⟨rfl, rfl, rfl⟩
  | cons x xs ih =>
    intro t halt
    simp only [List.foldl_cons]
    obtain ⟨a, b, d⟩ := ih (t.setActive (f t x)) (by rw [setActive_mode]; exact halt)
    exact ⟨a.trans (setActive_mode t _), b.trans (setActive_grid_of_alt t _ halt),
      d.trans (setActive_savedCursor t _)⟩

theorem opApply_pres (op : TermOp) (t : Terminal) (halt : t.mode.altScreen = true) :
    (op.apply t).mode = t.mode ∧ (op.apply t).grid = t.grid ∧
    (op.apply t).savedCursor = t.savedCursor := by
  cases op with
  | input w c => exact inputChar_pres t w c halt
  | lf => exact linefeed_pres t halt
  | cr => exact ⟨rfl, rfl, rfl⟩
  | tab =>
    show (t.tabOp).mode = t.mode ∧ (t.tabOp).grid = t.grid ∧
      (t.tabOp).savedCursor = t.savedCursor
    unfold tabOp
    cases hf : t.tabs.find? (fun stop => decide (stop > t.cursor.col)) <;> simp [hf]
  | bs => exact ⟨rfl, rfl, rfl⟩
  | moveTo col row => exact ⟨rfl, rfl, rfl⟩
  | move dc dr => exact ⟨rfl, rfl, rfl⟩
  | up n => exact scrollUpOp_pres t n halt
  | down n => exact scrollDownOp_pres t n halt
  | lineToEnd =>
    exact foldSetActive_pres
      (fun acc col => acc.activeGrid.set col t.cursor.row Cell.default) _ t halt
  | lineToStart =>
    exact foldSetActive_pres
      (fun acc col => acc.activeGrid.set col t.cursor.row Cell.default) _ t halt
  | line =>
    exact ⟨setActive_mode t _, setActive_grid_of_alt t _ halt, setActive_savedCursor t _⟩
  | dispToEnd =>
    show (t.eraseDisplayToEnd).mode = t.mode ∧ (t.eraseDisplayToEnd).grid = t.grid ∧
      (t.eraseDisplayToEnd).savedCursor = t.savedCursor
    unfold eraseDisplayToEnd
    obtain ⟨a1, b1, d1⟩ := foldSetActive_pres
      (fun acc col => acc.activeGrid.set col t.cursor.row Cell.default) _ t halt
    obtain ⟨a2, b2, d2⟩ := foldSetActive_pres
      (fun (acc : Terminal) (row : Nat) => acc.activeGrid.clearRow row) _
      t.eraseLineToEnd (by rw [show t.eraseLineToEnd.mode = t.mode from a1]; exact halt)
    exact ⟨a2.trans a1, b2.trans b1, d2.trans d1⟩
  | dispToStart =>
    show (t.eraseDisplayToStart).mode = t.mode ∧ (t.eraseDisplayToStart).grid = t.grid ∧
      (t.eraseDisplayToStart).savedCursor = t.savedCursor
    unfold eraseDisplayToStart
    obtain ⟨a1, b1, d1⟩ := foldSetActive_pres
      (fun acc col => acc.activeGrid.set col t.cursor.row Cell.default) _ t halt
    obtain ⟨a2, b2, d2⟩ := foldSetActive_pres
      (fun (acc : Terminal) (row : Nat) => acc.activeGrid.clearRow row) _
      t.eraseLineToStart (by rw [show t.eraseLineToStart.mode = t.mode from a1]; exact halt)
    exact ⟨a2.trans a1, b2.trans b1, d2.trans d1⟩
  | disp =>
    exact ⟨setActive_mode t _, setActive_grid_of_alt t _ halt, setActive_savedCursor t _⟩

end Terminal

/-- C6: entering the alternate screen, running any sequence of printing,
erasing, cursor movement and scrolling operations, then leaving the
alternate screen restores the main grid's cell contents exactly and
restores the cursor saved at enter time. -/
theorem claim_C6 (t : Terminal) (ops : List TermOp) (halt : t.mode.altScreen = false) :
    ((applyOps ops t.enterAltScreen).exitAltScreen).grid.cells = t.grid.cells ∧
    ((applyOps ops t.enterAltScreen).exitAltScreen).cursor = t.cursor := by
  have hs0 : (t.enterAltScreen).mode.altScreen = true ∧
      (t.enterAltScreen).grid = t.grid ∧ (t.enterAltScreen).savedCursor = t.cursor := by
    unfold Terminal.enterAltScreen Terminal.saveCursor
    rw [if_neg (by simp [halt])]
    exact ⟨rfl, rfl, rfl⟩
  have hind : ∀ (l : List TermOp) (s : Terminal), s.mode.altScreen = true →
      s.grid = t.grid → s.savedCursor = t.cursor →
      (applyOps l s).mode.altScreen = true ∧ (applyOps l s).grid = t.grid ∧
      (applyOps l s).savedCursor = t.cursor := by
    intro l
    induction l with
    | nil => exact fun s h1 h2 h3 => ⟨h1, h2, h3⟩
    | cons op l ih =>
      intro s h1 h2 h3
      obtain ⟨a, b, d⟩ := Terminal.opApply_pres op s h1
      exact ih (op.apply s) (by rw [a]; exact h1) (b.trans h2) (d.trans h3)
  obtain ⟨h1, h2, h3⟩ := hind ops t.enterAltScreen hs0.1 hs0.2.1 hs0.2.2
  unfold Terminal.exitAltScreen Terminal.restoreCursor
  rw [if_pos h1]
  refine ⟨?_, ?_⟩
  · show ((applyOps ops t.enterAltScreen).grid.markAllDirty).cells = t.grid.cells
    rw [h2]
    rfl
  · show (applyOps ops t.enterAltScreen).savedCursor = t.cursor
    exact h3

/-- C6 witness: the alternate-screen round trip on a concrete state and a
concrete operation sequence. -/
theorem claim_C6_witness :
    tBelow.mode.altScreen = false ∧
    ((applyOps [TermOp.input 1 'B', TermOp.lf, TermOp.cr, TermOp.disp]
        tBelow.enterAltScreen).exitAltScreen).grid.cells = tBelow.grid.cells ∧
    ((applyOps [TermOp.input 1 'B', TermOp.lf, TermOp.cr, TermOp.disp]
        tBelow.enterAltScreen).exitAltScreen).cursor = tBelow.cursor := by
  have h := claim_C6 tBelow [TermOp.input 1 'B', TermOp.lf, TermOp.cr, TermOp.disp]
    (by decide)
  exact ⟨by decide, h.1, h.2⟩


namespace PaneLayout

theorem isLeafOf_false_of_not_mem {L : PaneLayout} {n : Nat} (h : n ∉ L.allPaneIds) :
    L.isLeafOf n = false := by
  cases L with
  | single id =>
    simp only [allPaneIds, List.mem_singleton] at h
    simp [isLeafOf]
    omega
  | hsplit l r f => rfl
  | vsplit a b f => rfl

theorem removePane_none_of_not_mem :
    ∀ {L : PaneLayout} {n : Nat}, n ∉ L.allPaneIds → L.removePane n = none := by
  intro L
  induction L with
  | single id => intro n h; rfl
  | hsplit l r f ihl ihr =>
    intro n h
    simp only [allPaneIds, List.mem_append] at h
    push_neg at h
    unfold removePane
    rw [isLeafOf_false_of_not_mem h.1, isLeafOf_false_of_not_mem h.2,
      ihl h.1, ihr h.2]
    simp
  | vsplit a b f iha ihb =>
    intro n h
    simp only [allPaneIds, List.mem_append] at h
    push_neg at h
    unfold removePane
    rw [isLeafOf_false_of_not_mem h.1, isLeafOf_false_of_not_mem h.2,
      iha h.1, ihb h.2]
    simp

theorem splitH_found_iff :
    ∀ (L : PaneLayout) (t n : Nat), (L.splitHorizontal t n).2 = true ↔ t ∈ L.allPaneIds := by
  intro L
  induction L with
  | single id =>
    intro t n
    by_cases h : id = t <;> simp [splitHorizontal, h, allPaneIds, eq_comm]
  | hsplit l r f ihl ihr =>
    intro t n
    simp only [splitHorizontal]
    rcases hl : l.splitHorizontal t n with ⟨l2, fl⟩
    rcases hr : r.splitHorizontal t n with ⟨r2, fr⟩
    have hil := ihl t n
    have hir := ihr t n
    rw [hl] at hil
    rw [hr] at hir
    simp only [allPaneIds, List.mem_append]
    cases fl with
    | true => simp [hil.mp rfl]
    | false =>
      simp only [Bool.false_eq_true, if_false]
      simp only at hil
      constructor
      · intro hfr
        exact Or.inr (hir.mp hfr)
      · rintro (hml | hmr)
        · exact absurd (hil.mpr hml) (by simp)
        · exact hir.mpr hmr
  | vsplit a b f iha ihb =>
    intro t n
    simp only [splitHorizontal]
    rcases ha : a.splitHorizontal t n with ⟨a2, fa⟩
    rcases hb : b.splitHorizontal t n with ⟨b2, fb⟩
    have hia := iha t n
    have hib := ihb t n
    rw [ha] at hia
    rw [hb] at hib
    simp only [allPaneIds, List.mem_append]
    cases fa with
    | true => simp [hia.mp rfl]
    | false =>
      simp only [Bool.false_eq_true, if_false]
      simp only at hia
      constructor
      · intro hfb
        exact Or.inr (hib.mp hfb)
      · rintro (hma | hmb)
        · exact absurd (hia.mpr hma) (by simp)
        · exact hib.mpr hmb

end PaneLayout

namespace PaneLayout

theorem splitH_of_not_found :
    ∀ {L : PaneLayout} {t n : Nat}, (L.splitHorizontal t n).2 = false →
      (L.splitHorizontal t n).1 = L := by
  intro L
  induction L with
  | single id =>
    intro t n h
    by_cases hid : id = t
    · simp [splitHorizontal, hid] at h
    · simp [splitHorizontal, hid]
  | hsplit l r f ihl ihr =>
    intro t n h
    have hil := @ihl t n
    have hir := @ihr t n
    simp only [splitHorizontal] at h ⊢
    rcases hl : l.splitHorizontal t n with ⟨l2, fl⟩
    rcases hr : r.splitHorizontal t n with ⟨r2, fr⟩
    cases fl with
    | true => rw [hl] at h; simp at h
    | false =>
      cases fr with
      | true => rw [hl, hr] at h; simp at h
      | false =>
        have h3 : l2 = l := by
          have h4 := hil (by rw [hl]); rw [hl] at h4; exact h4
        have h5 : r2 = r := by
          have h4 := hir (by rw [hr]); rw [hr] at h4; exact h4
        show l2.hsplit r2 f = l.hsplit r f
        rw [h3, h5]
  | vsplit a b f iha ihb =>
    intro t n h
    have hia := @iha t n
    have hib := @ihb t n
    simp only [splitHorizontal] at h ⊢
    rcases ha : a.splitHorizontal t n with ⟨a2, fa⟩
    rcases hb : b.splitHorizontal t n with ⟨b2, fb⟩
    cases fa with
    | true => rw [ha] at h; simp at h
    | false =>
      cases fb with
      | true => rw [ha, hb] at h; simp at h
      | false =>
        have h3 : a2 = a := by
          have h4 := hia (by rw [ha]); rw [ha] at h4; exact h4
        have h5 : b2 = b := by
          have h4 := hib (by rw [hb]); rw [hb] at h4; exact h4
        show a2.vsplit b2 f = a.vsplit b f
        rw [h3, h5]

theorem splitH_not_single {L : PaneLayout} {t n : Nat}
    (h : (L.splitHorizontal t n).2 = true) (m : Nat) :
    ((L.splitHorizontal t n).1).isLeafOf m = false := by
  cases L with
  | single id =>
    by_cases hid : id = t
    · simp [splitHorizontal, hid, isLeafOf]
    · simp [splitHorizontal, hid] at h
  | hsplit l r f =>
    simp only [splitHorizontal]
    rcases hl : l.splitHorizontal t n with ⟨l2, fl⟩
    rcases hr : r.splitHorizontal t n with ⟨r2, fr⟩
    cases fl <;> simp [isLeafOf]
  | vsplit a b f =>
    simp only [splitHorizontal]
    rcases ha : a.splitHorizontal t n with ⟨a2, fa⟩
    rcases hb : b.splitHorizontal t n with ⟨b2, fb⟩
    cases fa <;> simp [isLeafOf]

theorem removePane_splitH :
    ∀ (L : PaneLayout) (t n : Nat), t ∈ L.allPaneIds → n ∉ L.allPaneIds →
      ((L.splitHorizontal t n).1).removePane n = some L := by
  intro L
  induction L with
  | single id =>
    intro t n ht hn
    simp only [allPaneIds, List.mem_singleton] at ht hn
    subst ht
    rw [show splitHorizontal (single t) t n
        = (hsplit (single t) (single n) (1/2 : Rat), true) by simp [splitHorizontal]]
    show removePane (hsplit (single t) (single n) (1/2 : Rat)) n = some (single t)
    unfold removePane
    rw [show (single t).isLeafOf n = false by simp [isLeafOf]; omega,
      show (single n).isLeafOf n = true by simp [isLeafOf]]
    simp
  | hsplit l r f ihl ihr =>
    intro t n ht hn
    simp only [allPaneIds, List.mem_append] at ht hn
    push_neg at hn
    simp only [splitHorizontal]
    rcases hl : l.splitHorizontal t n with ⟨l2, fl⟩
    cases fl with
    | true =>
      have hmem : t ∈ l.allPaneIds := by
        have h2 := splitH_found_iff l t n; rw [hl] at h2; exact h2.mp rfl
      have hrec : l2.removePane n = some l := by
        have h2 := ihl t n hmem hn.1; rw [hl] at h2; exact h2
      have hnotleaf : l2.isLeafOf n = false := by
        have h2 := splitH_not_single (L := l) (t := t) (n := n) (by rw [hl]) n
        rw [hl] at h2; exact h2
      show removePane (hsplit l2 r f) n = some (hsplit l r f)
      unfold removePane
      rw [hnotleaf, isLeafOf_false_of_not_mem hn.2, hrec]
      simp
    | false =>
      have hleq : l2 = l := by
        have h2 := splitH_of_not_found (L := l) (t := t) (n := n) (by rw [hl])
        rw [hl] at h2; exact h2
      rcases hr2 : r.splitHorizontal t n with ⟨r2, fr⟩
      have hmem : t ∈ r.allPaneIds := by
        have hfl := splitH_found_iff l t n
        rw [hl] at hfl
        rcases ht with h | h
        · exact absurd (hfl.mpr h) (by simp)
        · exact h
      have hfr : fr = true := by
        have h2 := splitH_found_iff r t n; rw [hr2] at h2; exact h2.mpr hmem
      subst hfr
      have hrec : r2.removePane n = some r := by
        have h2 := ihr t n hmem hn.2; rw [hr2] at h2; exact h2
      have hnotleaf : r2.isLeafOf n = false := by
        have h2 := splitH_not_single (L := r) (t := t) (n := n) (by rw [hr2]) n
        rw [hr2] at h2; exact h2
      show removePane (hsplit l2 r2 f) n = some (hsplit l r f)
      rw [hleq]
      unfold removePane
      rw [isLeafOf_false_of_not_mem hn.1, hnotleaf,
        removePane_none_of_not_mem hn.1, hrec]
      simp
  | vsplit a b f iha ihb =>
    intro t n ht hn
    simp only [allPaneIds, List.mem_append] at ht hn
    push_neg at hn
    simp only [splitHorizontal]
    rcases ha : a.splitHorizontal t n with ⟨a2, fa⟩
    cases fa with
    | true =>
      have hmem : t ∈ a.allPaneIds := by
        have h2 := splitH_found_iff a t n; rw [ha] at h2; exact h2.mp rfl
      have hrec : a2.removePane n = some a := by
        have h2 := iha t n hmem hn.1; rw [ha] at h2; exact h2
      have hnotleaf : a2.isLeafOf n = false := by
        have h2 := splitH_not_single (L := a) (t := t) (n := n) (by rw [ha]) n
        rw [ha] at h2; exact h2
      show removePane (vsplit a2 b f) n = some (vsplit a b f)
      unfold removePane
      rw [hnotleaf, isLeafOf_false_of_not_mem hn.2, hrec]
      simp
    | false =>
      have haeq : a2 = a := by
        have h2 := splitH_of_not_found (L := a) (t := t) (n := n) (by rw [ha])
        rw [ha] at h2; exact h2
      rcases hb2 : b.splitHorizontal t n with ⟨b2, fb⟩
      have hmem : t ∈ b.allPaneIds := by
        have hfa := splitH_found_iff a t n
        rw [ha] at hfa
        rcases ht with h | h
        · exact absurd (hfa.mpr h) (by simp)
        · exact h
      have hfb : fb = true := by
        have h2 := splitH_found_iff b t n; rw [hb2] at h2; exact h2.mpr hmem
      subst hfb
      have hrec : b2.removePane n = some b := by
        have h2 := ihb t n hmem hn.2; rw [hb2] at h2; exact h2
      have hnotleaf : b2.isLeafOf n = false := by
        have h2 := splitH_not_single (L := b) (t := t) (n := n) (by rw [hb2]) n
        rw [hb2] at h2; exact h2
      show removePane (vsplit a2 b2 f) n = some (vsplit a b f)
      rw [haeq]
      unfold removePane
      rw [isLeafOf_false_of_not_mem hn.1, hnotleaf,
        removePane_none_of_not_mem hn.1, hrec]
      simp

end PaneLayout

namespace PaneLayout

theorem splitV_found_iff :
    ∀ (L : PaneLayout) (t n : Nat), (L.splitVertical t n).2 = true ↔ t ∈ L.allPaneIds := by
  intro L
  induction L with
  | single id =>
    intro t n
    by_cases h : id = t <;> simp [splitVertical, h, allPaneIds, eq_comm]
  | hsplit l r f ihl ihr =>
    intro t n
    simp only [splitVertical]
    rcases hl : l.splitVertical t n with ⟨l2, fl⟩
    rcases hr : r.splitVertical t n with ⟨r2, fr⟩
    have hil := ihl t n
    have hir := ihr t n
    rw [hl] at hil
    rw [hr] at hir
    simp only [allPaneIds, List.mem_append]
    cases fl with
    | true => simp [hil.mp rfl]
    | false =>
      simp only [Bool.false_eq_true, if_false]
      simp only at hil
      constructor
      · intro hfr
        exact Or.inr (hir.mp hfr)
      · rintro (hml | hmr)
        · exact absurd (hil.mpr hml) (by simp)
        · exact hir.mpr hmr
  | vsplit a b f iha ihb =>
    intro t n
    simp only [splitVertical]
    rcases ha : a.splitVertical t n with ⟨a2, fa⟩
    rcases hb : b.splitVertical t n with ⟨b2, fb⟩
    have hia := iha t n
    have hib := ihb t n
    rw [ha] at hia
    rw [hb] at hib
    simp only [allPaneIds, List.mem_append]
    cases fa with
    | true => simp [hia.mp rfl]
    | false =>
      simp only [Bool.false_eq_true, if_false]
      simp only at hia
      constructor
      · intro hfb
        exact Or.inr (hib.mp hfb)
      · rintro (hma | hmb)
        · exact absurd (hia.mpr hma) (by simp)
        · exact hib.mpr hmb


theorem splitV_of_not_found :
    ∀ {L : PaneLayout} {t n : Nat}, (L.splitVertical t n).2 = false →
      (L.splitVertical t n).1 = L := by
  intro L
  induction L with
  | single id =>
    intro t n h
    by_cases hid : id = t
    · simp [splitVertical, hid] at h
    · simp [splitVertical, hid]
  | hsplit l r f ihl ihr =>
    intro t n h
    have hil := @ihl t n
    have hir := @ihr t n
    simp only [splitVertical] at h ⊢
    rcases hl : l.splitVertical t n with ⟨l2, fl⟩
    rcases hr : r.splitVertical t n with ⟨r2, fr⟩
    cases fl with
    | true => rw [hl] at h; simp at h
    | false =>
      cases fr with
      | true => rw [hl, hr] at h; simp at h
      | false =>
        have h3 : l2 = l := by
          have h4 := hil (by rw [hl]); rw [hl] at h4; exact h4
        have h5 : r2 = r := by
          have h4 := hir (by rw [hr]); rw [hr] at h4; exact h4
        show l2.hsplit r2 f = l.hsplit r f
        rw [h3, h5]
  | vsplit a b f iha ihb =>
    intro t n h
    have hia := @iha t n
    have hib := @ihb t n
    simp only [splitVertical] at h ⊢
    rcases ha : a.splitVertical t n with ⟨a2, fa⟩
    rcases hb : b.splitVertical t n with ⟨b2, fb⟩
    cases fa with
    | true => rw [ha] at h; simp at h
    | false =>
      cases fb with
      | true => rw [ha, hb] at h; simp at h
      | false =>
        have h3 : a2 = a := by
          have h4 := hia (by rw [ha]); rw [ha] at h4; exact h4
        have h5 : b2 = b := by
          have h4 := hib (by rw [hb]); rw [hb] at h4; exact h4
        show a2.vsplit b2 f = a.vsplit b f
        rw [h3, h5]


theorem splitV_not_single {L : PaneLayout} {t n : Nat}
    (h : (L.splitVertical t n).2 = true) (m : Nat) :
    ((L.splitVertical t n).1).isLeafOf m = false := by
  cases L with
  | single id =>
    by_cases hid : id = t
    · simp [splitVertical, hid, isLeafOf]
    · simp [splitVertical, hid] at h
  | hsplit l r f =>
    simp only [splitVertical]
    rcases hl : l.splitVertical t n with ⟨l2, fl⟩
    rcases hr : r.splitVertical t n with ⟨r2, fr⟩
    cases fl <;> simp [isLeafOf]
  | vsplit a b f =>
    simp only [splitVertical]
    rcases ha : a.splitVertical t n with ⟨a2, fa⟩
    rcases hb : b.splitVertical t n with ⟨b2, fb⟩
    cases fa <;> simp [isLeafOf]


theorem removePane_splitV :
    ∀ (L : PaneLayout) (t n : Nat), t ∈ L.allPaneIds → n ∉ L.allPaneIds →
      ((L.splitVertical t n).1).removePane n = some L := by
  intro L
  induction L with
  | single id =>
    intro t n ht hn
    simp only [allPaneIds, List.mem_singleton] at ht hn
    subst ht
    rw [show splitVertical (single t) t n
        = (vsplit (single t) (single n) (1/2 : Rat), true) by simp [splitVertical]]
    show removePane (vsplit (single t) (single n) (1/2 : Rat)) n = some (single t)
    unfold removePane
    rw [show (single t).isLeafOf n = false by simp [isLeafOf]; omega,
      show (single n).isLeafOf n = true by simp [isLeafOf]]
    simp
  | hsplit l r f ihl ihr =>
    intro t n ht hn
    simp only [allPaneIds, List.mem_append] at ht hn
    push_neg at hn
    simp only [splitVertical]
    rcases hl : l.splitVertical t n with ⟨l2, fl⟩
    cases fl with
    | true =>
      have hmem : t ∈ l.allPaneIds := by
        have h2 := splitV_found_iff l t n; rw [hl] at h2; exact h2.mp rfl
      have hrec : l2.removePane n = some l := by
        have h2 := ihl t n hmem hn.1; rw [hl] at h2; exact h2
      have hnotleaf : l2.isLeafOf n = false := by
        have h2 := splitV_not_single (L := l) (t := t) (n := n) (by rw [hl]) n
        rw [hl] at h2; exact h2
      show removePane (hsplit l2 r f) n = some (hsplit l r f)
      unfold removePane
      rw [hnotleaf, isLeafOf_false_of_not_mem hn.2, hrec]
      simp
    | false =>
      have hleq : l2 = l := by
        have h2 := splitV_of_not_found (L := l) (t := t) (n := n) (by rw [hl])
        rw [hl] at h2; exact h2
      rcases hr2 : r.splitVertical t n with ⟨r2, fr⟩
      have hmem : t ∈ r.allPaneIds := by
        have hfl := splitV_found_iff l t n
        rw [hl] at hfl
        rcases ht with h | h
        · exact absurd (hfl.mpr h) (by simp)
        · exact h
      have hfr : fr = true := by
        have h2 := splitV_found_iff r t n; rw [hr2] at h2; exact h2.mpr hmem
      subst hfr
      have hrec : r2.removePane n = some r := by
        have h2 := ihr t n hmem hn.2; rw [hr2] at h2; exact h2
      have hnotleaf : r2.isLeafOf n = false := by
        have h2 := splitV_not_single (L := r) (t := t) (n := n) (by rw [hr2]) n
        rw [hr2] at h2; exact h2
      show removePane (hsplit l2 r2 f) n = some (hsplit l r f)
      rw [hleq]
      unfold removePane
      rw [isLeafOf_false_of_not_mem hn.1, hnotleaf,
        removePane_none_of_not_mem hn.1, hrec]
      simp
  | vsplit a b f iha ihb =>
    intro t n ht hn
    simp only [allPaneIds, List.mem_append] at ht hn
    push_neg at hn
    simp only [splitVertical]
    rcases ha : a.splitVertical t n with ⟨a2, fa⟩
    cases fa with
    | true =>
      have hmem : t ∈ a.allPaneIds := by
        have h2 := splitV_found_iff a t n; rw [ha] at h2; exact h2.mp rfl
      have hrec : a2.removePane n = some a := by
        have h2 := iha t n hmem hn.1; rw [ha] at h2; exact h2
      have hnotleaf : a2.isLeafOf n = false := by
        have h2 := splitV_not_single (L := a) (t := t) (n := n) (by rw [ha]) n
        rw [ha] at h2; exact h2
      show removePane (vsplit a2 b f) n = some (vsplit a b f)
      unfold removePane
      rw [hnotleaf, isLeafOf_false_of_not_mem hn.2, hrec]
      simp
    | false =>
      have haeq : a2 = a := by
        have h2 := splitV_of_not_found (L := a) (t := t) (n := n) (by rw [ha])
        rw [ha] at h2; exact h2
      rcases hb2 : b.splitVertical t n with ⟨b2, fb⟩
      have hmem : t ∈ b.allPaneIds := by
        have hfa := splitV_found_iff a t n
        rw [ha] at hfa
        rcases ht with h | h
        · exact absurd (hfa.mpr h) (by simp)
        · exact h
      have hfb : fb = true := by
        have h2 := splitV_found_iff b t n; rw [hb2] at h2; exact h2.mpr hmem
      subst hfb
      have hrec : b2.removePane n = some b := by
        have h2 := ihb t n hmem hn.2; rw [hb2] at h2; exact h2
      have hnotleaf : b2.isLeafOf n = false := by
        have h2 := splitV_not_single (L := b) (t := t) (n := n) (by rw [hb2]) n
        rw [hb2] at h2; exact h2
      show removePane (vsplit a2 b2 f) n = some (vsplit a b f)
      rw [haeq]
      unfold removePane
      rw [isLeafOf_false_of_not_mem hn.1, hnotleaf,
        removePane_none_of_not_mem hn.1, hrec]
      simp


end PaneLayout


/-- C7: splitting a leaf t of a layout not containing n and then removing
n restores the original layout exactly, tree shape, leaf ids, orientations
and ratios included; both for horizontal and vertical splits. -/
theorem claim_C7 (L : PaneLayout) (t n : Nat)
    (ht : t ∈ L.allPaneIds) (hn : n ∉ L.allPaneIds) :
    ((L.splitHorizontal t n).1).removePane n = some L ∧
    ((L.splitVertical t n).1).removePane n = some L :=
  ⟨PaneLayout.removePane_splitH L t n ht hn, PaneLayout.removePane_splitV L t n ht hn⟩

/-- C7 witness: the split/remove round trip on a two-leaf layout with an
off-half ratio. -/
theorem claim_C7_witness :
    (1 ∈ (PaneLayout.hsplit (.single 1) (.single 2) (3/4 : Rat)).allPaneIds ∧
      7 ∉ (PaneLayout.hsplit (.single 1) (.single 2) (3/4 : Rat)).allPaneIds) ∧
    (((PaneLayout.hsplit (.single 1) (.single 2) (3/4 : Rat)).splitHorizontal 1 7).1).removePane 7
      = some (PaneLayout.hsplit (.single 1) (.single 2) (3/4 : Rat)) ∧
    (((PaneLayout.hsplit (.single 1) (.single 2) (3/4 : Rat)).splitVertical 1 7).1).removePane 7
      = some (PaneLayout.hsplit (.single 1) (.single 2) (3/4 : Rat)) := by
  have h := claim_C7 (PaneLayout.hsplit (.single 1) (.single 2) (3/4 : Rat)) 1 7
    (by simp [PaneLayout.allPaneIds]) (by simp [PaneLayout.allPaneIds])
  exact ⟨⟨by simp [PaneLayout.allPaneIds], by simp [PaneLayout.allPaneIds]⟩, h.1, h.2⟩



theorem interval_split (x w f p : Rat) (h0 : 0 < f) (h1 : f < 1) :
    ((x ≤ p ∧ p < x + w * f) ∨
      (x + w * f ≤ p ∧ p < (x + w * f) + w * (1 - f))) ↔ (x ≤ p ∧ p < x + w) := by
  have heq : (x + w * f) + w * (1 - f) = x + w := by ring
  constructor
  · rintro (⟨ha, hb⟩ | ⟨ha, hb⟩)
    · refine ⟨ha, ?_⟩
      rcases lt_trichotomy w 0 with hw | hw | hw
      · have : w * f < 0 := mul_neg_of_neg_of_pos hw h0
        linarith
      · subst hw; linarith
      · have : w * f < w * 1 := by
          exact mul_lt_mul_of_pos_left h1 hw
        linarith
    · refine ⟨?_, by linarith [heq]⟩
      rcases lt_trichotomy w 0 with hw | hw | hw
      · have : w * (1 - f) < 0 := mul_neg_of_neg_of_pos hw (by linarith)
        linarith
      · subst hw; linarith
      · have : 0 < w * f := mul_pos hw h0
        linarith
  · rintro ⟨ha, hb⟩
    by_cases hc : p < x + w * f
    · exact Or.inl ⟨ha, hc⟩
    · exact Or.inr ⟨le_of_not_lt hc, by linarith [heq]⟩

theorem hsplit_union (b : RectQ) (f : Rat) (h0 : 0 < f) (h1 : f < 1) :
    RectQ.points { x := b.x, y := b.y, w := b.w * f, h := b.h } ∪
      RectQ.points { x := b.x + b.w * f, y := b.y, w := b.w * (1 - f), h := b.h }
      = b.points := by
  ext p
  simp only [RectQ.points, Set.mem_union, Set.mem_setOf_eq]
  constructor
  · rintro (⟨ha, hb2, hy1, hy2⟩ | ⟨ha, hb2, hy1, hy2⟩)
    · obtain ⟨hA, hB⟩ := (interval_split b.x b.w f p.1 h0 h1).mp (Or.inl ⟨ha, hb2⟩)
      exact ⟨hA, hB, hy1, hy2⟩
    · obtain ⟨hA, hB⟩ := (interval_split b.x b.w f p.1 h0 h1).mp (Or.inr ⟨ha, hb2⟩)
      exact ⟨hA, hB, hy1, hy2⟩
  · rintro ⟨hA, hB, hy1, hy2⟩
    rcases (interval_split b.x b.w f p.1 h0 h1).mpr ⟨hA, hB⟩ with h | h
    · exact Or.inl ⟨h.1, h.2, hy1, hy2⟩
    · exact Or.inr ⟨h.1, h.2, hy1, hy2⟩

theorem vsplit_union (b : RectQ) (f : Rat) (h0 : 0 < f) (h1 : f < 1) :
    RectQ.points { x := b.x, y := b.y, w := b.w, h := b.h * f } ∪
      RectQ.points { x := b.x, y := b.y + b.h * f, w := b.w, h := b.h * (1 - f) }
      = b.points := by
  ext p
  simp only [RectQ.points, Set.mem_union, Set.mem_setOf_eq]
  constructor
  · rintro (⟨hx1, hx2, ha, hb2⟩ | ⟨hx1, hx2, ha, hb2⟩)
    · obtain ⟨hA, hB⟩ := (interval_split b.y b.h f p.2 h0 h1).mp (Or.inl ⟨ha, hb2⟩)
      exact ⟨hx1, hx2, hA, hB⟩
    · obtain ⟨hA, hB⟩ := (interval_split b.y b.h f p.2 h0 h1).mp (Or.inr ⟨ha, hb2⟩)
      exact ⟨hx1, hx2, hA, hB⟩
  · rintro ⟨hx1, hx2, hA, hB⟩
    rcases (interval_split b.y b.h f p.2 h0 h1).mpr ⟨hA, hB⟩ with h | h
    · exact Or.inl ⟨hx1, hx2, h.1, h.2⟩
    · exact Or.inr ⟨hx1, hx2, h.1, h.2⟩

theorem hsplit_disj (b : RectQ) (f : Rat) (p : Rat × Rat)
    (hl : p ∈ RectQ.points { x := b.x, y := b.y, w := b.w * f, h := b.h }) :
    p ∉ RectQ.points { x := b.x + b.w * f, y := b.y, w := b.w * (1 - f), h := b.h } := by
  simp only [RectQ.points, Set.mem_setOf_eq] at hl ⊢
  intro hr
  obtain ⟨-, h2, -, -⟩ := hl
  obtain ⟨h3, -, -, -⟩ := hr
  exact absurd h3 (not_le.mpr h2)

theorem vsplit_disj (b : RectQ) (f : Rat) (p : Rat × Rat)
    (hl : p ∈ RectQ.points { x := b.x, y := b.y, w := b.w, h := b.h * f }) :
    p ∉ RectQ.points { x := b.x, y := b.y + b.h * f, w := b.w, h := b.h * (1 - f) } := by
  simp only [RectQ.points, Set.mem_setOf_eq] at hl ⊢
  intro hr
  obtain ⟨-, -, -, h2⟩ := hl
  obtain ⟨-, -, h3, -⟩ := hr
  exact absurd h3 (not_le.mpr h2)

theorem coveredPoints_append (l1 l2 : List (Nat × RectQ)) :
    coveredPoints (l1 ++ l2) = coveredPoints l1 ∪ coveredPoints l2 := by
  ext p
  simp only [coveredPoints, Set.mem_union, Set.mem_setOf_eq, List.mem_append]
  constructor
  · rintro ⟨pr, (h | h), hp⟩
    · exact Or.inl ⟨pr, h, hp⟩
    · exact Or.inr ⟨pr, h, hp⟩
  · rintro (⟨pr, h, hp⟩ | ⟨pr, h, hp⟩)
    · exact ⟨pr, Or.inl h, hp⟩
    · exact ⟨pr, Or.inr h, hp⟩

theorem calcRects_subset :
    ∀ (L : PaneLayout) (R : RectQ), L.FracsValid →
      ∀ pr ∈ L.calculateRects R, pr.2.points ⊆ R.points := by
  intro L
  induction L with
  | single id =>
    intro R hv pr hpr
    simp only [PaneLayout.calculateRects, List.mem_singleton] at hpr
    subst hpr
    exact fun p hp => hp
  | hsplit l r f ihl ihr =>
    intro R hv pr hpr
    obtain ⟨h0, h1, hvl, hvr⟩ := hv
    simp only [PaneLayout.calculateRects, List.mem_append] at hpr
    rcases hpr with h | h
    · intro p hp
      have hsub := ihl _ hvl pr h hp
      rw [← hsplit_union R f h0 h1]
      exact Or.inl hsub
    · intro p hp
      have hsub := ihr _ hvr pr h hp
      rw [← hsplit_union R f h0 h1]
      exact Or.inr hsub
  | vsplit a b f iha ihb =>
    intro R hv pr hpr
    obtain ⟨h0, h1, hva, hvb⟩ := hv
    simp only [PaneLayout.calculateRects, List.mem_append] at hpr
    rcases hpr with h | h
    · intro p hp
      have hsub := iha _ hva pr h hp
      rw [← vsplit_union R f h0 h1]
      exact Or.inl hsub
    · intro p hp
      have hsub := ihb _ hvb pr h hp
      rw [← vsplit_union R f h0 h1]
      exact Or.inr hsub

/-- C8 (amended): with every split ratio strictly between 0 and 1 and the
split arithmetic taken over exact rationals, the rectangles of
calculate_rects partition the input rectangle — their union is the input
rectangle and no two of them share a point (rectangles taken half-open) —
and the returned pane ids are exactly all_pane_ids in order.  Over the
program's f32 arithmetic the exact-partition part fails:
claim_C8_counterexample exhibits an uncovered sliver. -/
theorem claim_C8 (L : PaneLayout) (R : RectQ) (hv : L.FracsValid) :
    coveredPoints (L.calculateRects R) = R.points ∧
    List.Pairwise PtsDisjoint (L.calculateRects R) ∧
    (L.calculateRects R).map Prod.fst = L.allPaneIds := by
  induction L generalizing R with
  | single id =>
    refine ⟨?_, by simp [PaneLayout.calculateRects], by
      simp [PaneLayout.calculateRects, PaneLayout.allPaneIds]⟩
    ext p
    simp [coveredPoints, PaneLayout.calculateRects]
  | hsplit l r f ihl ihr =>
    obtain ⟨h0, h1, hvl, hvr⟩ := hv
    obtain ⟨ul, pl, ml⟩ := ihl _ hvl
    obtain ⟨ur, pr2, mr⟩ := ihr _ hvr
    simp only [PaneLayout.calculateRects]
    refine ⟨?_, ?_, ?_⟩
    · rw [coveredPoints_append, ul, ur, hsplit_union R f h0 h1]
    · rw [List.pairwise_append]
      refine ⟨pl, pr2, ?_⟩
      intro e1 he1 e2 he2 p hp1 hp2
      have hs1 := calcRects_subset l _ hvl e1 he1 hp1
      have hs2 := calcRects_subset r _ hvr e2 he2 hp2
      exact hsplit_disj R f p hs1 hs2
    · rw [List.map_append, ml, mr]
      rfl
  | vsplit a b f iha ihb =>
    obtain ⟨h0, h1, hva, hvb⟩ := hv
    obtain ⟨ua, pa, ma⟩ := iha _ hva
    obtain ⟨ub, pb, mb⟩ := ihb _ hvb
    simp only [PaneLayout.calculateRects]
    refine ⟨?_, ?_, ?_⟩
    · rw [coveredPoints_append, ua, ub, vsplit_union R f h0 h1]
    · rw [List.pairwise_append]
      refine ⟨pa, pb, ?_⟩
      intro e1 he1 e2 he2 p hp1 hp2
      have hs1 := calcRects_subset a _ hva e1 he1 hp1
      have hs2 := calcRects_subset b _ hvb e2 he2 hp2
      exact vsplit_disj R f p hs1 hs2
    · rw [List.map_append, ma, mb]
      rfl

/-- C8 witness: the tiling property on a two-leaf layout over the unit
square. -/
theorem claim_C8_witness :
    (PaneLayout.hsplit (.single 1) (.single 2) (1/2 : Rat)).FracsValid ∧
    coveredPoints ((PaneLayout.hsplit (.single 1) (.single 2) (1/2 : Rat)).calculateRects
        ⟨0, 0, 1, 1⟩) = RectQ.points ⟨0, 0, 1, 1⟩ ∧
    List.Pairwise PtsDisjoint ((PaneLayout.hsplit (.single 1) (.single 2)
        (1/2 : Rat)).calculateRects ⟨0, 0, 1, 1⟩) ∧
    ((PaneLayout.hsplit (.single 1) (.single 2) (1/2 : Rat)).calculateRects
        ⟨0, 0, 1, 1⟩).map Prod.fst
      = (PaneLayout.hsplit (.single 1) (.single 2) (1/2 : Rat)).allPaneIds := by
  have hv : (PaneLayout.hsplit (.single 1) (.single 2) (1/2 : Rat)).FracsValid :=
    ⟨by norm_num, by norm_num, trivial, trivial⟩
  have h := claim_C8 (PaneLayout.hsplit (.single 1) (.single 2) (1/2 : Rat))
    ⟨0, 0, 1, 1⟩ hv
  exact ⟨hv, h.1, h.2.1, h.2.2⟩

set_option maxRecDepth 100000

/-- C8 counterexample: under the source's f32 arithmetic a ratio-0.1 split
of the unit square does not cover it.  The stored ratio is
13421773·2^(-27) (the binary32 nearest 0.1); the right pane gets
x = 13421773·2^(-27) and width fl(1 - fl(0.1)) = 15099494·2^(-24), so
x + width = 134217725·2^(-27) < 1 and the sliver
[134217725/134217728, 1) × [0, 1) — here witnessed by the point
(134217725/134217728, 0) — lies in the parent but in neither child,
refuting the claimed union-equals-parent over the program's arithmetic. -/
theorem claim_C8_counterexample :
    ((134217725 / 134217728 : Rat), (0 : Rat)) ∈ RectQ.points ⟨0, 0, 1, 1⟩ ∧
    ∀ pr ∈ (PaneLayout.hsplit (.single 1) (.single 2) frac01).calculateRectsF32
        ⟨0, 0, f32One, f32One⟩,
      ((134217725 / 134217728 : Rat), (0 : Rat)) ∉ (RectF.toQ pr.2).points := by
  constructor
  · simp only [RectQ.points, Set.mem_setOf_eq]
    norm_num
  · have hlist : (PaneLayout.hsplit (.single 1) (.single 2) frac01).calculateRectsF32
        ⟨0, 0, f32One, f32One⟩ =
        [(1, ⟨0, 0, 13421773 * 2 ^ 273, 2 ^ 300⟩),
         (2, ⟨13421773 * 2 ^ 273, 0, 15099494 * 2 ^ 276, 2 ^ 300⟩)] := by decide
    rw [hlist]
    intro pr hpr
    simp only [List.mem_cons, List.not_mem_nil, or_false] at hpr
    rcases hpr with rfl | rfl
    · simp only [RectF.toQ, RectQ.points, Set.mem_setOf_eq]
      push_cast
      rintro ⟨-, h2, -, -⟩
      norm_num at h2
    · simp only [RectF.toQ, RectQ.points, Set.mem_setOf_eq]
      push_cast
      rintro ⟨-, h2, -, -⟩
      norm_num at h2

end UmiTerm

namespace UmiTerm
namespace GlyphAtlas

theorem getOrInsert_fail_glyphs (a : GlyphAtlas) (c : Char) (w h : Nat)
    (hfail : (a.getOrInsert c w h).1 = none) :
    (a.getOrInsert c w h).2.glyphs = a.glyphs := by
  unfold getOrInsert at hfail ⊢
  cases hl : a.glyphs.lookup c with
  | some info => rw [hl] at hfail
  | none =>
    rw [hl] at hfail
    dsimp only at hfail ⊢
    by_cases hz : w = 0 ∨ h = 0
    · rw [if_pos hz] at hfail
      simp at hfail
    · rw [if_neg hz] at hfail ⊢
      by_cases hwrap : a.width < a.cursorX + w
      · rw [if_pos hwrap] at hfail ⊢
        by_cases hfull : a.height < a.cursorY + a.rowHeight + h
        · rw [if_pos hfull]
        · rw [if_neg hfull] at hfail
          simp at hfail
      · rw [if_neg hwrap] at hfail ⊢
        by_cases hfull : a.height < a.cursorY + h
        · rw [if_pos hfull]
        · rw [if_neg hfull] at hfail
          simp at hfail

theorem rects_cons_none (a : GlyphAtlas) (c : Char) :
    ({ a with glyphs := (c, none) :: a.glyphs } : GlyphAtlas).rects = a.rects := by
  unfold rects
  simp [List.filterMap_cons]

theorem getOrInsert_step (a : GlyphAtlas) (c : Char) (w h : Nat)
    (hp : a.Packed) (hw : w ≤ a.width) :
    (a.getOrInsert c w h).2.Packed ∧
    (a.getOrInsert c w h).2.width = a.width ∧
    (a.getOrInsert c w h).2.height = a.height := by
  obtain ⟨hdisj, hbounds, hpos⟩ := hp
  unfold getOrInsert
  cases hl : a.glyphs.lookup c with
  | some info => exact ⟨⟨hdisj, hbounds, hpos⟩, rfl, rfl⟩
  | none =>
    dsimp only
    by_cases hz : w = 0 ∨ h = 0
    · rw [if_pos hz]
      refine ⟨⟨?_, ?_, ?_⟩, rfl, rfl⟩
      · rw [rects_cons_none]; exact hdisj
      · rw [rects_cons_none]; exact hbounds
      · rw [rects_cons_none]; exact hpos
    · rw [if_neg hz]
      -- facts about the (possibly) wrapped intermediate state a1
      set a1 := if a.cursorX + w > a.width then
        { a with cursorX := 0, cursorY := a.cursorY + a.rowHeight, rowHeight := 0 }
        else a with ha1
      have ha1w : a1.width = a.width := by rw [ha1]; split <;> rfl
      have ha1h : a1.height = a.height := by rw [ha1]; split <;> rfl
      have ha1g : a1.rects = a.rects := by rw [ha1]; split <;> rfl
      have ha1x : a1.cursorX + w ≤ a.width := by
        rw [ha1]; split
        · simpa using hw
        · omega
      have ha1pos : ∀ r ∈ a.rects, r.y + r.h ≤ a1.cursorY ∨
          (r.y = a1.cursorY ∧ r.x + r.w < a1.cursorX ∧
            r.y + r.h < a1.cursorY + a1.rowHeight) := by
        intro r hr
        rw [ha1]
        split
        · rcases hpos r hr with h1 | h2
          · left; simp only; omega
          · left; simp only; omega
        · exact hpos r hr
      by_cases hfull : a1.cursorY + h > a1.height
      · rw [if_pos hfull]
        dsimp only
        refine ⟨⟨?_, ?_, ?_⟩, ha1w, ha1h⟩
        · rw [ha1g]; exact hdisj
        · rw [ha1g, ha1w, ha1h]; exact hbounds
        · rw [ha1g]
          exact ha1pos
      · rw [if_neg hfull]
        dsimp only
        have hrects : ({ a1 with
            glyphs := (c, some ⟨a1.cursorX, a1.cursorY, w, h⟩) :: a1.glyphs
            cursorX := a1.cursorX + w + 1
            rowHeight := max a1.rowHeight (h + 1) } : GlyphAtlas).rects
            = (⟨a1.cursorX, a1.cursorY, w, h⟩ : GlyphRect) :: a.rects := by
          unfold rects
          simp only [List.filterMap_cons]
          have hg : a1.glyphs = a.glyphs := by rw [ha1]; split <;> rfl
          rw [hg]
        refine ⟨⟨?_, ?_, ?_⟩, ha1w, ha1h⟩
        · rw [hrects, List.pairwise_cons]
          refine ⟨?_, hdisj⟩
          intro r hr
          rcases ha1pos r hr with h1 | h2
          · unfold RectsDisjoint
            right; right; right
            simpa using h1
          · unfold RectsDisjoint
            right; left
            simp only
            omega
        · rw [hrects, ha1w, ha1h]
          intro r hr
          rcases List.mem_cons.mp hr with h1 | h1
          · subst h1
            refine ⟨by simpa using ha1x, ?_⟩
            simp only
            rw [← ha1h]
            omega
          · exact hbounds r h1
        · rw [hrects]
          intro r hr
          rcases List.mem_cons.mp hr with h1 | h1
          · subst h1
            right
            refine ⟨rfl, ?_, ?_⟩
            · show a1.cursorX + w < a1.cursorX + w + 1
              omega
            · show a1.cursorY + h < a1.cursorY + max a1.rowHeight (h + 1)
              have := le_max_right a1.rowHeight (h + 1)
              omega
          · rcases ha1pos r h1 with h2 | h2
            · exact Or.inl h2
            · right
              simp only
              refine ⟨h2.1, by omega, ?_⟩
              have := le_max_left a1.rowHeight (h + 1)
              omega

theorem new_packed (W H : Nat) : (new W H).Packed := by
  refine ⟨?_, ?_, ?_⟩
  · exact List.Pairwise.nil
  · intro r hr; simp [rects, new] at hr
  · intro r hr; simp [rects, new] at hr

theorem run_packed (reqs : List (Char × Nat × Nat)) (a : GlyphAtlas)
    (hp : a.Packed) (hW : ∀ q ∈ reqs, q.2.1 ≤ a.width) :
    (a.run reqs).Packed ∧ (a.run reqs).width = a.width ∧
      (a.run reqs).height = a.height := by
  induction reqs generalizing a with
  | nil => exact ⟨hp, rfl, rfl⟩
  | cons q qs ih =>
    have hstep := getOrInsert_step a q.1 q.2.1 q.2.2 hp (hW q (List.mem_cons_self _ _))
    have htail := ih (a.getOrInsert q.1 q.2.1 q.2.2).2 hstep.1
      (fun r hr => by rw [hstep.2.1]; exact hW r (List.mem_cons_of_mem _ hr))
    unfold run at htail ⊢
    simp only [List.foldl_cons]
    exact ⟨htail.1, by rw [htail.2.1, hstep.2.1], by rw [htail.2.2, hstep.2.2]⟩

end GlyphAtlas

/-- C9: starting from a fresh W×H atlas and running any sequence of
get_or_insert requests whose rasterized widths are at most W, the cached
rectangles are pairwise disjoint and lie within the W×H bounds; and whenever
an insertion fails (returns none) the glyph table is unchanged.  (The claim's
stronger statement that the whole atlas state is unchanged on failure is
refuted by claim_C9_counterexample: the shelf wrap runs before the height
check and mutates the packing cursor.) -/
theorem claim_C9 (W H : Nat) (reqs : List (Char × Nat × Nat))
    (hreq : ∀ q ∈ reqs, q.2.1 ≤ W) (a : GlyphAtlas)
    (ha : a = (GlyphAtlas.new W H).run reqs) :
    List.Pairwise GlyphAtlas.RectsDisjoint a.rects ∧
    (∀ r ∈ a.rects, GlyphAtlas.RectInBounds W H r) ∧
    (∀ c w h, (a.getOrInsert c w h).1 = none →
      (a.getOrInsert c w h).2.glyphs = a.glyphs) := by
  subst ha
  have hrun := GlyphAtlas.run_packed reqs (GlyphAtlas.new W H)
    (GlyphAtlas.new_packed W H) hreq
  refine ⟨hrun.1.1, ?_, ?_⟩
  · intro r hr
    have hb := hrun.1.2.1 r hr
    rw [hrun.2.1, hrun.2.2] at hb
    exact hb
  · intro c w h hfail
    exact GlyphAtlas.getOrInsert_fail_glyphs _ c w h hfail

/-- C9 counterexample: the 2×2 glyph 'b' does not fit the nearly-full 10×10
atlas, so get_or_insert returns none, yet the atlas state is changed: the
shelf wrap ran before the height check, advancing cursor_y from 0 to 10 and
zeroing row_height. -/
theorem claim_C9_counterexample :
    (atlasNearFull.getOrInsert 'b' 2 2).1 = none ∧
    (atlasNearFull.getOrInsert 'b' 2 2).2 ≠ atlasNearFull := by
  decide

/-- C9 witness: the packing property instantiated on a 10×10 atlas receiving
a 9×9 and then a 2×2 glyph. -/
theorem claim_C9_witness :
    (∀ q ∈ ([('a', (9, 9)), ('b', (2, 2))] : List (Char × Nat × Nat)), q.2.1 ≤ 10) ∧
    (List.Pairwise GlyphAtlas.RectsDisjoint
        ((GlyphAtlas.new 10 10).run [('a', (9, 9)), ('b', (2, 2))]).rects ∧
      (∀ r ∈ ((GlyphAtlas.new 10 10).run [('a', (9, 9)), ('b', (2, 2))]).rects,
        GlyphAtlas.RectInBounds 10 10 r) ∧
      (∀ c w h,
        (((GlyphAtlas.new 10 10).run [('a', (9, 9)), ('b', (2, 2))]).getOrInsert c w h).1 = none →
        (((GlyphAtlas.new 10 10).run [('a', (9, 9)), ('b', (2, 2))]).getOrInsert c w h).2.glyphs =
          ((GlyphAtlas.new 10 10).run [('a', (9, 9)), ('b', (2, 2))]).glyphs)) :=
  ⟨by decide, claim_C9 10 10 [('a', (9, 9)), ('b', (2, 2))] (by decide) _ rfl⟩

end UmiTerm

namespace UmiTerm
namespace Grid

theorem length_foldl_preserve {α β : Type} (f : List α → β → List α)
    (hf : ∀ cs b, (f cs b).length = cs.length) :
    ∀ (l : List β) (cs : List α), (l.foldl f cs).length = cs.length := by
  intro l
  induction l with
  | nil => intro cs; rfl
  | cons x xs ih =>
    intro cs
    rw [List.foldl_cons, ih, hf]

theorem set_oob {g : Grid} {col row : Nat} (cell : Cell)
    (hout : g.cols ≤ col ∨ g.rows ≤ row) : g.set col row cell = g := by
  unfold set
  rw [if_neg (by omega)]

theorem get_oob {g : Grid} {col row : Nat}
    (hout : g.cols ≤ col ∨ g.rows ≤ row) : g.get col row = none := by
  rcases hout with h | h
  · exact get_none_left h
  · exact get_none_right h

theorem WF_new (nc nr : Nat) : (Grid.new nc nr).WF := by
  constructor <;> simp [new]

theorem WF_clearRow {g : Grid} (hwf : g.WF) (row : Nat) : (g.clearRow row).WF :=
  WF_of_sameShape hwf (sameShape_clearRow g row)

theorem WF_clear {g : Grid} (hwf : g.WF) : g.clear.WF :=
  WF_of_sameShape hwf (sameShape_clear g)

theorem WF_scrollUp {g : Grid} (hwf : g.WF) (amount : Nat) : (g.scrollUp amount).WF := by
  unfold scrollUp
  split
  · exact WF_clear hwf
  · dsimp only
    constructor
    · rw [length_foldl_set_range]
      unfold copyWithinToStart
      simp only [List.length_append, List.length_drop]
      have := hwf.1
      omega
    · simp [hwf.2]

theorem WF_resize (g : Grid) (nc nr : Nat) : (g.resize nc nr).WF := by
  unfold resize
  constructor
  · dsimp only
    rw [length_foldl_preserve]
    · simp
    · intro cs row
      rw [length_foldl_preserve]
      intro cs2 col
      simp
  · simp

theorem WF_markAllDirty {g : Grid} (hwf : g.WF) : g.markAllDirty.WF := by
  constructor <;> simp [markAllDirty, hwf.1, hwf.2]

theorem WF_clearDirty {g : Grid} (hwf : g.WF) : g.clearDirty.WF := by
  constructor <;> simp [clearDirty, hwf.1, hwf.2]

end Grid

/-- C10: on a well-formed grid, get(col, row) with col ≥ cols or row ≥ rows
returns none and set(col, row, cell) is a silent no-op returning the grid
unchanged (cells and dirty bits included); and every Grid operation — set,
clear_row, clear, scroll_up, resize, mark_all_dirty, clear_dirty, and new
itself — keeps cells.len() = cols × rows. -/
theorem claim_C10 (g : Grid) (col row : Nat) (cell : Cell)
    (hout : g.cols ≤ col ∨ g.rows ≤ row) (hwf : g.WF) :
    g.get col row = none ∧
    g.set col row cell = g ∧
    (∀ c r cl, ((g.set c r cl).cells.length = (g.set c r cl).cols * (g.set c r cl).rows)) ∧
    (∀ r, (g.clearRow r).cells.length = (g.clearRow r).cols * (g.clearRow r).rows) ∧
    (g.clear.cells.length = g.clear.cols * g.clear.rows) ∧
    (∀ n, (g.scrollUp n).cells.length = (g.scrollUp n).cols * (g.scrollUp n).rows) ∧
    (∀ nc nr, (g.resize nc nr).cells.length = (g.resize nc nr).cols * (g.resize nc nr).rows) ∧
    (g.markAllDirty.cells.length = g.markAllDirty.cols * g.markAllDirty.rows) ∧
    (g.clearDirty.cells.length = g.clearDirty.cols * g.clearDirty.rows) ∧
    (∀ nc nr, (Grid.new nc nr).cells.length = (Grid.new nc nr).cols * (Grid.new nc nr).rows) :=
  ⟨Grid.get_oob hout,
   Grid.set_oob cell hout,
   fun c r cl => (Grid.WF_set hwf c r cl).1,
   fun r => (Grid.WF_clearRow hwf r).1,
   (Grid.WF_clear hwf).1,
   fun n => (Grid.WF_scrollUp hwf n).1,
   fun nc nr => (Grid.WF_resize g nc nr).1,
   (Grid.WF_markAllDirty hwf).1,
   (Grid.WF_clearDirty hwf).1,
   fun nc nr => (Grid.WF_new nc nr).1⟩

/-- C10 witness: the out-of-bounds behaviour and the length invariant
instantiated on a concrete 2×2 grid probed at column 5. -/
theorem claim_C10_witness :
    ((Grid.new 2 2).cols ≤ 5 ∨ (Grid.new 2 2).rows ≤ 0) ∧ (Grid.new 2 2).WF ∧
    ((Grid.new 2 2).get 5 0 = none ∧
     (Grid.new 2 2).set 5 0 cellX = Grid.new 2 2 ∧
     (∀ c r cl, (((Grid.new 2 2).set c r cl).cells.length =
       ((Grid.new 2 2).set c r cl).cols * ((Grid.new 2 2).set c r cl).rows)) ∧
     (∀ r, ((Grid.new 2 2).clearRow r).cells.length =
       ((Grid.new 2 2).clearRow r).cols * ((Grid.new 2 2).clearRow r).rows) ∧
     ((Grid.new 2 2).clear.cells.length =
       (Grid.new 2 2).clear.cols * (Grid.new 2 2).clear.rows) ∧
     (∀ n, ((Grid.new 2 2).scrollUp n).cells.length =
       ((Grid.new 2 2).scrollUp n).cols * ((Grid.new 2 2).scrollUp n).rows) ∧
     (∀ nc nr, ((Grid.new 2 2).resize nc nr).cells.length =
       ((Grid.new 2 2).resize nc nr).cols * ((Grid.new 2 2).resize nc nr).rows) ∧
     ((Grid.new 2 2).markAllDirty.cells.length =
       (Grid.new 2 2).markAllDirty.cols * (Grid.new 2 2).markAllDirty.rows) ∧
     ((Grid.new 2 2).clearDirty.cells.length =
       (Grid.new 2 2).clearDirty.cols * (Grid.new 2 2).clearDirty.rows) ∧
     (∀ nc nr, (Grid.new nc nr).cells.length =
       (Grid.new nc nr).cols * (Grid.new nc nr).rows)) :=
  ⟨by decide, by decide, claim_C10 (Grid.new 2 2) 5 0 cellX (by decide) (by decide)⟩

end UmiTerm
